import Mathlib

/-!
# Clock recovery decoder (`scopeprotocols/ClockRecoveryDecoder.cpp`)

A shallow embedding of `ClockRecoveryDecoder::ValidateChannel` and
`ClockRecoveryDecoder::Refresh`, followed by theorems about them.

Conventions of the embedding:

* `float` and `double` values are rationals (`ℚ`).  The arithmetic of the
  loop is carried out without rounding error.  The nominal period, which is
  computed in single precision before the loop starts, is rounded as the
  source rounds it (`toFloat`).  `int64_t` and `size_t` values are `Int` and
  `Nat`, without wrap-around.
* A `std::vector` is a `List`; `v[i]` is `v[i]?`, and a read past the end is
  reported as a `Fault` that ends the run (the C++ behaviour is undefined).
* A nullable pointer is an `Option`; `dynamic_cast` is a match on the
  waveform variant.
* The `for` loop of `Refresh` takes a step budget (`fuel`); a run that still
  wants to iterate when the budget is used up is reported as `Run.timeout`.
* `GetTime`, `LogTrace` and `reserve` have no effect on the result and are
  left out, and so is the final averaging of `total_error`, which is only
  logged.
-/

namespace ClockRecovery

/-! ## Data model -/

/-- Modelled from the spec: the type tag of a channel (`analog/digital/…`);
the enumeration `OscilloscopeChannel::ChannelType` is declared outside this
file, and every tag other than the two named ones is `CHANNEL_TYPE_OTHER`. -/
inductive ChannelType
  | CHANNEL_TYPE_ANALOG
  | CHANNEL_TYPE_DIGITAL
  | CHANNEL_TYPE_OTHER
  deriving DecidableEq

/-- Modelled from the spec: an analog waveform, with the members that
`Refresh` reads (`AnalogWaveform` is declared outside this file). -/
structure AnalogWaveform where
  m_timescale : Int
  m_startTimestamp : Int
  m_startPicoseconds : Int
  m_triggerPhase : ℚ
  m_offsets : List Int
  m_durations : List Int
  m_samples : List ℚ
  deriving DecidableEq

/-- Modelled from the spec: a digital waveform, with the members that
`Refresh` reads and writes (`DigitalWaveform` is declared outside this
file). -/
structure DigitalWaveform where
  m_timescale : Int
  m_startTimestamp : Int
  m_startPicoseconds : Int
  m_triggerPhase : ℚ
  m_offsets : List Int
  m_durations : List Int
  m_samples : List Bool
  deriving DecidableEq

/-- Modelled from the spec: what a waveform pointer can point to; `other`
stands for every waveform class that is neither analog nor digital. -/
inductive WaveformBase
  | analog (w : AnalogWaveform)
  | digital (w : DigitalWaveform)
  | other
  deriving DecidableEq

/-- Modelled from the spec: a channel, with its type tag (`GetType`) and
its current waveform, null when there is none (`GetData`). -/
structure OscilloscopeChannel where
  GetType : ChannelType
  GetData : Option WaveformBase
  deriving DecidableEq

/-- The cast `dynamic_cast<AnalogWaveform*>(p)`. -/
def asAnalog : Option WaveformBase → Option AnalogWaveform
  | some (WaveformBase.analog w) => some w
  | _ => none

/-- The cast `dynamic_cast<DigitalWaveform*>(p)`. -/
def asDigital : Option WaveformBase → Option DigitalWaveform
  | some (WaveformBase.digital w) => some w
  | _ => none

/-- The decoder object: the two input slots `m_channels[0]` ("IN") and
`m_channels[1]` ("Gate"), the parameters "Symbol rate" and "Threshold", the
member `m_nominalPeriod`, and the waveform last published with `SetData`. -/
structure ClockRecoveryDecoder where
  m_channels_0 : Option OscilloscopeChannel
  m_channels_1 : Option OscilloscopeChannel
  m_baud : Int
  m_thresh : ℚ
  m_nominalPeriod : Int
  m_data : Option DigitalWaveform
  deriving DecidableEq

/-- Modelled from the spec: `SetData(w)` replaces the published waveform
by `w`, which may be null. -/
def SetData (d : ClockRecoveryDecoder) (w : Option DigitalWaveform) : ClockRecoveryDecoder :=
  { d with m_data := w }

/-- A vector read past the end, with the array and the index read. -/
inductive Fault
  | gateOffsets (igate : Nat)
  | gateDurations (igate : Nat)
  | gateSamples (igate : Nat)
  | edges (nedge : Nat)
  | inputOffsets
  deriving DecidableEq

/-- How a run ends: it returns, it reads past the end of a vector, or it
is still looping when the step budget is used up. -/
inductive Run (α : Type)
  | done (a : α)
  | fault (f : Fault)
  | timeout
  deriving DecidableEq

deriving instance DecidableEq for Except

/-! ## Numeric conversions -/

/-- The conversion `static_cast<int64_t>(x)` of a floating value: the
fraction is dropped (rounding toward zero). -/
def toInt64 (x : ℚ) : Int :=
  Int.tdiv x.num (x.den : Int)

/-- The C library function `round`: nearest integer, halves away from
zero. -/
def cround (x : ℚ) : Int :=
  if 0 ≤ x then Rat.floor (x + 1 / 2) else -Rat.floor (-x + 1 / 2)

/-- The integer nearest to `y`; a `y` halfway between two integers goes to
the even one. -/
def roundEven (y : ℚ) : Int :=
  if y - (⌊y⌋ : ℚ) < 1 / 2 then ⌊y⌋
  else if 1 / 2 < y - (⌊y⌋ : ℚ) then ⌊y⌋ + 1
  else if ⌊y⌋ % 2 = 0 then ⌊y⌋ else ⌊y⌋ + 1

/-- The number of times `n` can be halved before it drops below 2, with a
step budget: for `n ≤ fuel` and `n ≠ 0` this is the position of the leading
bit of `n`. -/
def log2Aux : Nat → Nat → Nat
  | 0, _ => 0
  | fuel + 1, n => if n < 2 then 0 else log2Aux fuel (n / 2) + 1

/-- The binary exponent of a rational `x ≠ 0`: the `e` with
`2^e ≤ |x| < 2^(e+1)`.  The difference of the leading bit positions of the
numerator and the denominator is `e` or `e + 1`; the comparison decides. -/
def binade (x : ℚ) : Int :=
  if (2 : ℚ) ^ ((log2Aux x.num.natAbs x.num.natAbs : Int) - (log2Aux x.den x.den : Int)) ≤ |x| then
    (log2Aux x.num.natAbs x.num.natAbs : Int) - (log2Aux x.den x.den : Int)
  else (log2Aux x.num.natAbs x.num.natAbs : Int) - (log2Aux x.den x.den : Int) - 1

/-- The conversion of a value to `float` (IEEE 754 binary32) and the
rounding of a `float` operation: the nearest number with a significand of 24
bits, ties to the even significand.  The exponent range is not modelled; the
values rounded here, a symbol rate of 64 bits and its quotient with `1e12`,
lie well inside it. -/
def toFloat (x : ℚ) : ℚ :=
  if x = 0 then 0
  else
    let ulp : ℚ := (2 : ℚ) ^ (binade x - 23)
    if x < 0 then -((roundEven (|x| / ulp) : ℚ) * ulp) else (roundEven (|x| / ulp) : ℚ) * ulp

/-! ## ValidateChannel -/

/-- The method `ClockRecoveryDecoder::ValidateChannel`. -/
def ValidateChannel (i : Nat) (channel : Option OscilloscopeChannel) : Bool :=
  match i with
  | 0 =>
    match channel with
    | none => false
    | some c => decide (c.GetType = ChannelType.CHANNEL_TYPE_ANALOG)
  | 1 =>
    match channel with
    | none => true
    | some c => decide (c.GetType = ChannelType.CHANNEL_TYPE_DIGITAL)
  | _ => false

/-! ## Refresh -/

/-- The local variables of the NCO loop of `Refresh` that live across
iterations, together with the output waveform `cap` under construction. -/
structure NcoState where
  edgepos : ℚ
  period : ℚ
  nedge : Nat
  value : Bool
  total_error : ℚ
  igate : Nat
  gating : Bool
  cycles_open_loop : Nat
  cap : DigitalWaveform
  deriving DecidableEq

/-- The gate lookup `while(igate < edges.size()-1) { ... }`.  The first
argument is the distance `edges.size()-1 - igate` left to the loop bound, so
that `0` is the guard being false.  Returns the cursor and the gating flag
after the loop. -/
def gateLoop (gate : DigitalWaveform) (edgepos : ℚ) : Nat → Nat → Bool → Except Fault (Nat × Bool)
  | 0, igate, gating => Except.ok (igate, gating)
  | r + 1, igate, gating =>
    match gate.m_offsets[igate]? with
    | none => Except.error (Fault.gateOffsets igate)
    | some a0 =>
      match gate.m_durations[igate]? with
      | none => Except.error (Fault.gateDurations igate)
      | some dur =>
        let a : Int := a0 * gate.m_timescale
        let b : Int := (a0 + dur) * gate.m_timescale
        if edgepos < (a : ℚ) then Except.ok (igate, gating)
        else if edgepos > (b : ℚ) then gateLoop gate edgepos r (igate + 1) gating
        else
          match gate.m_samples[igate]? with
          | none => Except.error (Fault.gateSamples igate)
          | some v => Except.ok (igate, !v)

/-- The body of the catch-up loop, from `double delta = ...` to `++nedge`
(the read `tnext = edges[nedge]` that follows is in `catchUp`): the phase
error is accumulated, the edge position is resynchronised or the period and
the edge position are corrected, the open-loop count is reset and `nedge`
moves on.  `was_gating` is the gating flag of the previous tick; the state
carries the current one. -/
def correct (was_gating : Bool) (s : NcoState) (tnext : ℚ) : NcoState :=
  let delta : ℚ := (s.edgepos - tnext) - s.period
  let total_error : ℚ := s.total_error + |delta|
  if was_gating && !s.gating then
    { s with edgepos := tnext + s.period,
             total_error := total_error, cycles_open_loop := 0, nedge := s.nedge + 1 }
  else if delta > 0 then
    let period : ℚ := s.period - 0.000025 * s.period * s.cycles_open_loop
    { s with period := period,
             edgepos := s.edgepos - 0.0025 * period * s.cycles_open_loop,
             total_error := total_error, cycles_open_loop := 0, nedge := s.nedge + 1 }
  else
    let period : ℚ := s.period + 0.000025 * s.period * s.cycles_open_loop
    { s with period := period,
             edgepos := s.edgepos + 0.0025 * period * s.cycles_open_loop,
             total_error := total_error, cycles_open_loop := 0, nedge := s.nedge + 1 }

/-- The catch-up loop
`while( (tnext + center < edgepos) && (nedge+1 < edges.size()) ) { ... }`.
The first argument is the distance `edges.size() - (nedge+1)` left to the
second guard, so that `0` is that guard being false. -/
def catchUp (edges : List ℚ) (center : ℚ) (was_gating : Bool) :
    Nat → NcoState → ℚ → Except Fault NcoState
  | 0, s, _ => Except.ok s
  | r + 1, s, tnext =>
    if tnext + center < s.edgepos then
      match edges[s.nedge + 1]? with
      | none => Except.error (Fault.edges (s.nedge + 1))
      | some t => catchUp edges center was_gating r (correct was_gating s tnext) t
    else Except.ok s

/-- The statements `if(!gating) { value = !value; push_back ... }` that end
the loop body; `edgepos_orig` is the edge position at the start of the
tick and `timescale` is `din->m_timescale`. -/
def emit (timescale : Int) (edgepos_orig : ℚ) (s : NcoState) : NcoState :=
  if !s.gating then
    { s with
      value := !s.value,
      cap := { s.cap with
        m_offsets := s.cap.m_offsets ++
          [cround (edgepos_orig + s.period / 2 - (timescale : ℚ) * 1.5)],
        m_durations := s.cap.m_durations ++ [toInt64 s.period],
        m_samples := s.cap.m_samples ++ [!s.value] } }
  else s

/-- The gate lookup of one tick: `if(gate != NULL) { while ... }`. -/
def gateStep (edges : List ℚ) (gate : Option DigitalWaveform) (s : NcoState) :
    Except Fault NcoState :=
  match gate with
  | none => Except.ok s
  | some g =>
    match gateLoop g s.edgepos (edges.length - 1 - s.igate) s.igate s.gating with
    | Except.error f => Except.error f
    | Except.ok (igate, gating) => Except.ok { s with igate := igate, gating := gating }

/-- One execution of the body of the `for` loop of `Refresh` (without the
increment `edgepos += period`). -/
def tick (edges : List ℚ) (gate : Option DigitalWaveform) (timescale : Int) (s : NcoState) :
    Except Fault NcoState :=
  let center : ℚ := s.period / 2
  let edgepos_orig : ℚ := s.edgepos
  let was_gating : Bool := s.gating
  match gateStep edges gate s with
  | Except.error f => Except.error f
  | Except.ok s1 =>
    match edges[s1.nedge]? with
    | none => Except.error (Fault.edges s1.nedge)
    | some tnext =>
      match catchUp edges center was_gating (edges.length - (s1.nedge + 1))
          { s1 with cycles_open_loop := s1.cycles_open_loop + 1 } tnext with
      | Except.error f => Except.error f
      | Except.ok s2 => Except.ok (emit timescale edgepos_orig s2)

/-- The loop
`for(; (edgepos < tend) && (nedge < edges.size()-1); edgepos += period)`,
run for at most `fuel` iterations. -/
def ncoLoop (edges : List ℚ) (gate : Option DigitalWaveform) (timescale : Int) (tend : Int) :
    Nat → NcoState → Run NcoState
  | 0, _ => Run.timeout
  | fuel + 1, s =>
    if s.edgepos < (tend : ℚ) ∧ s.nedge < edges.length - 1 then
      match tick edges gate timescale s with
      | Except.error f => Run.fault f
      | Except.ok s1 =>
        ncoLoop edges gate timescale tend fuel { s1 with edgepos := s1.edgepos + s1.period }
    else Run.done s

/-- The nominal period `static_cast<int64_t>(1.0e12f / baud)`, in
picoseconds.  The literal `1.0e12f` is the `float` nearest to `10^12`, which
is 999999995904; `baud` is converted to `float` for the division; the
quotient is a `float`; the cast drops its fraction. -/
def nominalPeriod (baud : Int) : Int :=
  toInt64 (toFloat (toFloat (10 ^ 12) / toFloat (baud : ℚ)))

/-- The values of the loop variables before the first iteration, and the
freshly created output waveform. -/
def initState (din : AnalogWaveform) (ps : Int) (edge0 : ℚ) : NcoState :=
  { edgepos := edge0,
    period := (ps : ℚ),
    nedge := 1,
    value := false,
    total_error := 0,
    igate := 0,
    gating := false,
    cycles_open_loop := 0,
    cap :=
      { m_timescale := 1,
        m_startTimestamp := din.m_startTimestamp,
        m_startPicoseconds := din.m_startPicoseconds,
        m_triggerPhase := 0,
        m_offsets := [],
        m_durations := [],
        m_samples := [] } }

/-- The gate waveform that `Refresh` uses: null when `m_channels[1]` is
null, else the cast of that channel's data to a digital waveform. -/
def gateOf (d : ClockRecoveryDecoder) : Option DigitalWaveform :=
  match d.m_channels_1 with
  | none => none
  | some c => asDigital c.GetData

/-- The method `ClockRecoveryDecoder::Refresh`.  `FindZeroCrossings` is the
zero-crossing primitive, which is declared outside this file: it maps the
input waveform and the threshold to the crossing times. -/
def Refresh (FindZeroCrossings : AnalogWaveform → ℚ → List ℚ) (fuel : Nat)
    (d : ClockRecoveryDecoder) : Run ClockRecoveryDecoder :=
  match d.m_channels_0 with
  | none => Run.done (SetData d none)
  | some c0 =>
    match asAnalog c0.GetData with
    | none => Run.done (SetData d none)
    | some din =>
      if din.m_samples.length = 0 then Run.done (SetData d none)
      else
        let gate := gateOf d
        let ps : Int := nominalPeriod d.m_baud
        let d1 : ClockRecoveryDecoder := { d with m_nominalPeriod := ps }
        match FindZeroCrossings din d.m_thresh with
        | [] => Run.done (SetData d1 none)
        | edge0 :: rest =>
          match din.m_offsets.getLast? with
          | none => Run.fault Fault.inputOffsets
          | some last =>
            let tend : Int := last * din.m_timescale
            match ncoLoop (edge0 :: rest) gate din.m_timescale tend fuel
                (initState din ps edge0) with
            | Run.done s => Run.done (SetData d1 (some s.cap))
            | Run.fault f => Run.fault f
            | Run.timeout => Run.timeout


/-- The states at the start of the ticks that `ncoLoop` executes, in
order: a record of the run, not part of the source. -/
def tickStarts (edges : List ℚ) (gate : Option DigitalWaveform) (timescale : Int) (tend : Int) :
    Nat → NcoState → List NcoState
  | 0, _ => []
  | fuel + 1, s =>
    if s.edgepos < (tend : ℚ) ∧ s.nedge < edges.length - 1 then
      s :: (match tick edges gate timescale s with
        | Except.error _ => []
        | Except.ok s1 =>
          tickStarts edges gate timescale tend fuel { s1 with edgepos := s1.edgepos + s1.period })
    else []

/-- The states at the start of the ticks that a run of `Refresh` executes
(none when `Refresh` returns before the loop). -/
def refreshTicks (FindZeroCrossings : AnalogWaveform → ℚ → List ℚ) (fuel : Nat)
    (d : ClockRecoveryDecoder) : List NcoState :=
  match d.m_channels_0 with
  | none => []
  | some c0 =>
    match asAnalog c0.GetData with
    | none => []
    | some din =>
      if din.m_samples.length = 0 then []
      else
        match FindZeroCrossings din d.m_thresh with
        | [] => []
        | edge0 :: rest =>
          match din.m_offsets.getLast? with
          | none => []
          | some last =>
            tickStarts (edge0 :: rest) (gateOf d) din.m_timescale (last * din.m_timescale) fuel
              (initState din (nominalPeriod d.m_baud) edge0)

/-- The states at the end of the body of the ticks that `ncoLoop` executes
(before the increment `edgepos += period`), in order: a record of the run,
not part of the source. -/
def tickEnds (edges : List ℚ) (gate : Option DigitalWaveform) (timescale : Int) (tend : Int) :
    Nat → NcoState → List NcoState
  | 0, _ => []
  | fuel + 1, s =>
    if s.edgepos < (tend : ℚ) ∧ s.nedge < edges.length - 1 then
      match tick edges gate timescale s with
      | Except.error _ => []
      | Except.ok s1 =>
        s1 :: tickEnds edges gate timescale tend fuel { s1 with edgepos := s1.edgepos + s1.period }
    else []

/-- The states at the end of the body of the ticks that a run of `Refresh`
executes (none when `Refresh` returns before the loop). -/
def refreshTickEnds (FindZeroCrossings : AnalogWaveform → ℚ → List ℚ) (fuel : Nat)
    (d : ClockRecoveryDecoder) : List NcoState :=
  match d.m_channels_0 with
  | none => []
  | some c0 =>
    match asAnalog c0.GetData with
    | none => []
    | some din =>
      if din.m_samples.length = 0 then []
      else
        match FindZeroCrossings din d.m_thresh with
        | [] => []
        | edge0 :: rest =>
          match din.m_offsets.getLast? with
          | none => []
          | some last =>
            tickEnds (edge0 :: rest) (gateOf d) din.m_timescale (last * din.m_timescale) fuel
              (initState din (nominalPeriod d.m_baud) edge0)

/-- The states in which the body of the catch-up loop is entered during
one run of `catchUp`, in order: a record of the run, not part of the
source. -/
def catchUpSteps (edges : List ℚ) (center : ℚ) (was_gating : Bool) :
    Nat → NcoState → ℚ → List NcoState
  | 0, _, _ => []
  | r + 1, s, tnext =>
    if tnext + center < s.edgepos then
      s :: (match edges[s.nedge + 1]? with
        | none => []
        | some t => catchUpSteps edges center was_gating r (correct was_gating s tnext) t)
    else []

/-- The states in which the body of the catch-up loop is entered during one
tick that starts in the state `s`. -/
def tickSteps (edges : List ℚ) (gate : Option DigitalWaveform) (s : NcoState) : List NcoState :=
  match gateStep edges gate s with
  | Except.error _ => []
  | Except.ok s1 =>
    match edges[s1.nedge]? with
    | none => []
    | some tnext =>
      catchUpSteps edges (s.period / 2) s.gating (edges.length - (s1.nedge + 1))
        { s1 with cycles_open_loop := s1.cycles_open_loop + 1 } tnext

/-- The samples emitted so far alternate, starting with `true`: sample `i`
is `true` exactly when `i` is even, and the level `value` is the last
sample emitted (`false` before the first one). -/
def AlternatesSoFar (s : NcoState) : Prop :=
  (∀ (i : Nat) (v : Bool), s.cap.m_samples[i]? = some v → v = decide (i % 2 = 0)) ∧
    s.value = decide (s.cap.m_samples.length % 2 = 1)

/-! ## Example inputs -/

/-- An analog input of two samples, one at offset `0` and one at offset
`last`, with a timescale of one picosecond per unit. -/
def exampleInput (last : Int) : AnalogWaveform :=
  { m_timescale := 1, m_startTimestamp := 0, m_startPicoseconds := 0, m_triggerPhase := 0,
    m_offsets := [0, last], m_durations := [1, 1], m_samples := [-1, 1] }

/-- An analog input of four samples, `-1, 1, -1, 1`, at the offsets 0, 1000,
2000 and 3000 ps: it crosses the threshold `0` at 500, 1500 and 2500 ps. -/
def squareInput : AnalogWaveform :=
  { m_timescale := 1, m_startTimestamp := 0, m_startPicoseconds := 0, m_triggerPhase := 0,
    m_offsets := [0, 1000, 2000, 3000], m_durations := [1000, 1000, 1000, 1000],
    m_samples := [-1, 1, -1, 1] }

/-- A digital gate waveform with a timescale of one picosecond per unit. -/
def exampleGate (offsets durations : List Int) (samples : List Bool) : DigitalWaveform :=
  { m_timescale := 1, m_startTimestamp := 0, m_startPicoseconds := 0, m_triggerPhase := 0,
    m_offsets := offsets, m_durations := durations, m_samples := samples }

/-- A decoder whose primary input holds the analog waveform `din`, with an
optional gate waveform and the given symbol rate; the threshold is zero. -/
def exampleDecoder (din : AnalogWaveform) (gate : Option DigitalWaveform) (baud : Int) :
    ClockRecoveryDecoder :=
  { m_channels_0 := some { GetType := ChannelType.CHANNEL_TYPE_ANALOG,
                           GetData := some (WaveformBase.analog din) },
    m_channels_1 := gate.map fun g =>
      { GetType := ChannelType.CHANNEL_TYPE_DIGITAL, GetData := some (WaveformBase.digital g) },
    m_baud := baud,
    m_thresh := 0,
    m_nominalPeriod := 0,
    m_data := none }

/-- A zero-crossing primitive that reports the crossing times `edges`. -/
def crossingsAt (edges : List ℚ) : AnalogWaveform → ℚ → List ℚ :=
  fun _ _ => edges

/-- An output waveform as `Refresh` builds it for the example inputs
(timescale 1, start time and trigger phase 0), with the given samples. -/
def exampleCap (offsets durations : List Int) (samples : List Bool) : DigitalWaveform :=
  { m_timescale := 1, m_startTimestamp := 0, m_startPicoseconds := 0, m_triggerPhase := 0,
    m_offsets := offsets, m_durations := durations, m_samples := samples }

/-- The decoder `d` after a `Refresh` that stored the nominal period `ps`
and published the waveform with the given samples. -/
def examplePublished (d : ClockRecoveryDecoder) (ps : Int) (offsets durations : List Int)
    (samples : List Bool) : ClockRecoveryDecoder :=
  SetData { d with m_nominalPeriod := ps } (some (exampleCap offsets durations samples))

/-- The sample offsets of the waveform that a run published, if any. -/
def publishedOffsets : Run ClockRecoveryDecoder → Option (List Int)
  | Run.done d => d.m_data.map fun w => w.m_offsets
  | _ => none

theorem gateLoop_not_edges (gate : DigitalWaveform) (edgepos : ℚ) (i : Nat) :
    ∀ (r igate : Nat) (gating : Bool),
      gateLoop gate edgepos r igate gating ≠ Except.error (Fault.edges i) := by
  intro r
  induction r with
  | zero => intro igate gating; simp [gateLoop]
  | succ r ih =>
    intro igate gating
    unfold gateLoop
    split
    · simp
    · split
      · simp
      · simp only []
        split
        · simp
        · split
          · exact ih _ _
          · split <;> simp

theorem gateStep_fields {edges : List ℚ} {gate : Option DigitalWaveform} {s s1 : NcoState}
    (h : gateStep edges gate s = Except.ok s1) :
    s1 = { s with igate := s1.igate, gating := s1.gating } := by
  unfold gateStep at h
  split at h
  · cases h; rfl
  · split at h
    · cases h
    · cases h; rfl

theorem gateStep_not_edges (edges : List ℚ) (gate : Option DigitalWaveform) (s : NcoState)
    (i : Nat) : gateStep edges gate s ≠ Except.error (Fault.edges i) := by
  unfold gateStep
  split
  · simp
  · split
    · rename_i f hf
      intro h
      cases h
      exact gateLoop_not_edges _ _ _ _ _ _ hf
    · simp

theorem correct_nedge (was_gating : Bool) (s : NcoState) (tnext : ℚ) :
    (correct was_gating s tnext).nedge = s.nedge + 1 := by
  unfold correct
  simp only []
  split_ifs <;> rfl

theorem correct_frame (was_gating : Bool) (s : NcoState) (tnext : ℚ) :
    (correct was_gating s tnext).value = s.value ∧ (correct was_gating s tnext).cap = s.cap ∧
    (correct was_gating s tnext).gating = s.gating ∧
    (correct was_gating s tnext).igate = s.igate ∧
    (correct was_gating s tnext).cycles_open_loop = 0 := by
  unfold correct
  simp only []
  split_ifs <;> exact ⟨rfl, rfl, rfl, rfl, rfl⟩

theorem catchUp_ok (edges : List ℚ) (center : ℚ) (was_gating : Bool) :
    ∀ (r : Nat) (s : NcoState) (tnext : ℚ), s.nedge + 1 + r ≤ edges.length →
      ∃ s', catchUp edges center was_gating r s tnext = Except.ok s' := by
  intro r
  induction r with
  | zero => intro s tnext _; exact ⟨s, rfl⟩
  | succ r ih =>
    intro s tnext hlen
    unfold catchUp
    split
    · have hlt : s.nedge + 1 < edges.length := by omega
      simp only [List.getElem?_eq_getElem hlt]
      apply ih
      rw [correct_nedge]
      omega
    · exact ⟨s, rfl⟩

theorem tick_not_edges (edges : List ℚ) (gate : Option DigitalWaveform) (timescale : Int)
    (s : NcoState) (hn : s.nedge < edges.length - 1) (i : Nat) :
    tick edges gate timescale s ≠ Except.error (Fault.edges i) := by
  unfold tick
  simp only []
  split
  · rename_i f hf
    intro h
    cases h
    exact gateStep_not_edges _ _ _ _ hf
  · rename_i s1 hs1
    have hf := gateStep_fields hs1
    have hn1 : s1.nedge = s.nedge := by rw [hf]
    have hlt : s1.nedge < edges.length := by omega
    simp only [List.getElem?_eq_getElem hlt]
    obtain ⟨s2, hs2⟩ := catchUp_ok edges (s.period / 2) s.gating (edges.length - (s1.nedge + 1))
      { s1 with cycles_open_loop := s1.cycles_open_loop + 1 } edges[s1.nedge]
      (by simp only []; omega)
    rw [hs2]
    simp

theorem ncoLoop_not_edges (edges : List ℚ) (gate : Option DigitalWaveform) (timescale tend : Int)
    (i : Nat) : ∀ (fuel : Nat) (s : NcoState),
      ncoLoop edges gate timescale tend fuel s ≠ Run.fault (Fault.edges i) := by
  intro fuel
  induction fuel with
  | zero => intro s; simp [ncoLoop]
  | succ fuel ih =>
    intro s
    unfold ncoLoop
    split
    · rename_i hc
      split
      · rename_i f hf
        intro h
        cases h
        exact tick_not_edges _ _ _ _ hc.2 _ hf
      · exact ih _
    · simp

/-- C2: no run of `Refresh` reads the crossing sequence past its end: for
every zero-crossing primitive, step budget and decoder, `Refresh` never
ends in the fault of a read `edges[nedge]` with `nedge ≥ edges.size()`,
neither at the start of a tick nor after `++nedge` in the catch-up loop. -/
theorem Refresh_edges_in_bounds (FindZeroCrossings : AnalogWaveform → ℚ → List ℚ) (fuel : Nat)
    (d : ClockRecoveryDecoder) (i : Nat) :
    Refresh FindZeroCrossings fuel d ≠ Run.fault (Fault.edges i) := by
  unfold Refresh
  split
  · simp
  · split
    · simp
    · split
      · simp
      · simp only []
        split
        · simp
        · split
          · simp
          · split
            · simp
            · rename_i f hf
              intro h
              cases h
              exact ncoLoop_not_edges _ _ _ _ _ _ _ hf
            · simp

/-- C6: `ValidateChannel(i, channel)` is true exactly when `i = 0` and the
channel is non-null and analog, or `i = 1` and the channel is null or
digital; for every other index it is false, whatever the channel. -/
theorem ValidateChannel_iff (i : Nat) (channel : Option OscilloscopeChannel) :
    ValidateChannel i channel = true ↔
      (i = 0 ∧ ∃ c, channel = some c ∧ c.GetType = ChannelType.CHANNEL_TYPE_ANALOG) ∨
      (i = 1 ∧ (channel = none ∨
        ∃ c, channel = some c ∧ c.GetType = ChannelType.CHANNEL_TYPE_DIGITAL)) := by
  match i, channel with
  | 0, none => simp [ValidateChannel]
  | 0, some c => simp [ValidateChannel]
  | 1, none => simp [ValidateChannel]
  | 1, some c => simp [ValidateChannel]
  | n + 2, ch => simp [ValidateChannel]

/-- C3: when the primary input channel is unbound, or its waveform is
absent or not analog, or its waveform has zero samples, `Refresh` publishes
null and returns at once (with any step budget, zero included), whatever
the gate input and the parameters are; nothing else of the decoder
changes. -/
theorem Refresh_no_primary_input (FindZeroCrossings : AnalogWaveform → ℚ → List ℚ)
    (fuel : Nat) (d : ClockRecoveryDecoder)
    (h : d.m_channels_0 = none ∨
      (∃ c, d.m_channels_0 = some c ∧ asAnalog c.GetData = none) ∨
      (∃ c din, d.m_channels_0 = some c ∧ asAnalog c.GetData = some din ∧
        din.m_samples.length = 0)) :
    Refresh FindZeroCrossings fuel d = Run.done (SetData d none) ∧
      (SetData d none).m_data = none := by
  refine ⟨?_, rfl⟩
  rcases h with h | ⟨c, hc, ha⟩ | ⟨c, din, hc, ha, hz⟩
  · simp [Refresh, h]
  · simp [Refresh, hc, ha]
  · simp [Refresh, hc, ha, hz]

/-- C4: for a bound primary input with a non-empty analog waveform, when
the zero-crossing primitive returns no crossing, `Refresh` publishes null
(after storing the nominal period) and returns. -/
theorem Refresh_no_crossings (FindZeroCrossings : AnalogWaveform → ℚ → List ℚ)
    (fuel : Nat) (d : ClockRecoveryDecoder) (c : OscilloscopeChannel) (din : AnalogWaveform)
    (hc : d.m_channels_0 = some c) (ha : asAnalog c.GetData = some din)
    (hs : din.m_samples.length ≠ 0) (he : FindZeroCrossings din d.m_thresh = []) :
    ∃ d', Refresh FindZeroCrossings fuel d = Run.done d' ∧ d'.m_data = none ∧
      d'.m_nominalPeriod = nominalPeriod d.m_baud := by
  refine ⟨SetData { d with m_nominalPeriod := nominalPeriod d.m_baud } none, ?_, rfl, rfl⟩
  simp [Refresh, hc, ha, hs, he]

/-- C1: a run of `Refresh` that reads the gate waveform past its end.  The
gate has one interval, `[0, 100]` ps, and the crossings are at 500, 1500 and
2500 ps: in the first tick the cursor moves past the only interval, the
guard `igate < edges.size()-1` is still true with `igate = 1`, and
`gate->m_offsets[1]` is read, although the gate has a single interval. -/
theorem Refresh_gate_read_past_end :
    Refresh (crossingsAt [500, 1500, 2500]) 1
        (exampleDecoder squareInput (some (exampleGate [0] [100] [true])) 1000000000) =
      Run.fault (Fault.gateOffsets 1) ∧
    (exampleGate [0] [100] [true]).m_offsets.length = 1 := by
  decide!

/-- C3, witness: a bound analog input without any sample. -/
theorem Refresh_no_primary_input_witness :
    (∃ c din, (exampleDecoder { exampleInput 0 with m_samples := [] } none 1250000000).m_channels_0
          = some c ∧ asAnalog c.GetData = some din ∧ din.m_samples.length = 0) ∧
      Refresh (crossingsAt [0, 800]) 0
          (exampleDecoder { exampleInput 0 with m_samples := [] } none 1250000000) =
        Run.done (SetData
          (exampleDecoder { exampleInput 0 with m_samples := [] } none 1250000000) none) :=
  ⟨⟨_, _, rfl, rfl, rfl⟩,
   (Refresh_no_primary_input (crossingsAt [0, 800]) 0
      (exampleDecoder { exampleInput 0 with m_samples := [] } none 1250000000)
      (Or.inr (Or.inr ⟨_, _, rfl, rfl, rfl⟩))).1⟩

/-- C4, witness: a non-empty analog input in which no crossing is found. -/
theorem Refresh_no_crossings_witness :
    ∃ d', Refresh (crossingsAt []) 0 (exampleDecoder (exampleInput 1000) none 1250000000) =
        Run.done d' ∧ d'.m_data = none ∧ d'.m_nominalPeriod = nominalPeriod 1250000000 :=
  Refresh_no_crossings (crossingsAt []) 0 (exampleDecoder (exampleInput 1000) none 1250000000)
    _ (exampleInput 1000) rfl rfl (by decide) rfl

/-! ## Basic facts about one tick -/

theorem emit_frame (timescale : Int) (e : ℚ) (s : NcoState) :
    (emit timescale e s).edgepos = s.edgepos ∧ (emit timescale e s).period = s.period ∧
    (emit timescale e s).nedge = s.nedge ∧ (emit timescale e s).gating = s.gating ∧
    (emit timescale e s).igate = s.igate ∧
    (emit timescale e s).cycles_open_loop = s.cycles_open_loop := by
  unfold emit
  split <;> simp

theorem catchUp_not_due (edges : List ℚ) (center : ℚ) (was_gating : Bool) (r : Nat)
    (s : NcoState) (tnext : ℚ) (h : ¬ tnext + center < s.edgepos) :
    catchUp edges center was_gating r s tnext = Except.ok s := by
  cases r with
  | zero => rfl
  | succ r => simp [catchUp, h]

theorem tick_open_loop (edges : List ℚ) (timescale : Int) (s : NcoState) (t : ℚ)
    (ht : edges[s.nedge]? = some t) (h : ¬ t + s.period / 2 < s.edgepos) :
    tick edges none timescale s =
      Except.ok (emit timescale s.edgepos
        { s with cycles_open_loop := s.cycles_open_loop + 1 }) := by
  simp only [tick, gateStep, ht]
  rw [catchUp_not_due _ _ _ _ _ _ (by simpa using h)]

/-! ## What `Refresh` publishes once crossings were found -/

theorem ncoLoop_zero_period_timeout :
    ∀ (fuel : Nat) (s : NcoState), s.edgepos = 0 → s.period = 0 → s.nedge = 1 →
      s.gating = false → ncoLoop [0, 10, 20] none 1 100 fuel s = Run.timeout := by
  intro fuel
  induction fuel with
  | zero => intro s _ _ _ _; rfl
  | succ fuel ih =>
    intro s he hp hn hg
    have h1 := tick_open_loop [0, 10, 20] 1 s 10 (by rw [hn]; rfl)
      (by rw [he, hp]; norm_num)
    obtain ⟨e1, e2, e3, e4, -, -⟩ := emit_frame 1 s.edgepos
      { s with cycles_open_loop := s.cycles_open_loop + 1 }
    unfold ncoLoop
    rw [if_pos (by rw [he, hn]; constructor <;> norm_num), h1]
    apply ih
    · show (emit _ _ _).edgepos + (emit _ _ _).period = 0
      rw [e1, e2]; simp [he, hp]
    · show (emit _ _ _).period = 0
      rw [e2]; exact hp
    · show (emit _ _ _).nedge = 1
      rw [e3]; exact hn
    · show (emit _ _ _).gating = false
      rw [e4]; exact hg

/-- C5, counterexample: a run of `Refresh` that publishes nothing: with a symbol rate of 2 THz
the nominal period is `0` ps, the edge position never advances and the loop
does not end, although the primary input is a non-empty analog waveform and
there are three crossings. -/
theorem Refresh_zero_period_never_returns :
    ¬ ∃ fuel d', Refresh (crossingsAt [0, 10, 20]) fuel
        (exampleDecoder (exampleInput 100) none 2000000000000) = Run.done d' := by
  rintro ⟨fuel, d', h⟩
  have hp : nominalPeriod 2000000000000 = 0 := by decide!
  have ht := ncoLoop_zero_period_timeout fuel (initState (exampleInput 100) 0 0) rfl
    (by simp [initState]) rfl rfl
  simp [Refresh, exampleDecoder, asAnalog, exampleInput, crossingsAt, gateOf, hp] at h
  simp [exampleInput] at ht
  rw [ht] at h
  simp at h

/-- C5, amended: for a bound primary input with a non-empty analog waveform
(last offset `last`) and a non-empty crossing sequence, `Refresh` never
publishes null: whenever it returns, it has published the non-null waveform
built by the loop; whenever the loop ends within the step budget, `Refresh`
returns and publishes that waveform; and with fewer than three crossings the
loop body never runs, so that `Refresh` returns with a non-null waveform
without any sample. -/
theorem Refresh_publishes_cap (FindZeroCrossings : AnalogWaveform → ℚ → List ℚ)
    (fuel : Nat) (d : ClockRecoveryDecoder) (c : OscilloscopeChannel) (din : AnalogWaveform)
    (edge0 : ℚ) (rest : List ℚ) (last : Int)
    (hc : d.m_channels_0 = some c) (ha : asAnalog c.GetData = some din)
    (hs : din.m_samples.length ≠ 0) (he : FindZeroCrossings din d.m_thresh = edge0 :: rest)
    (hl : din.m_offsets.getLast? = some last) :
    (∀ d', Refresh FindZeroCrossings fuel d = Run.done d' →
      ∃ s, ncoLoop (edge0 :: rest) (gateOf d) din.m_timescale (last * din.m_timescale) fuel
          (initState din (nominalPeriod d.m_baud) edge0) = Run.done s ∧
        d'.m_data = some s.cap) ∧
    (∀ s, ncoLoop (edge0 :: rest) (gateOf d) din.m_timescale (last * din.m_timescale) fuel
          (initState din (nominalPeriod d.m_baud) edge0) = Run.done s →
      ∃ d', Refresh FindZeroCrossings fuel d = Run.done d' ∧ d'.m_data = some s.cap) ∧
    (rest.length ≤ 1 →
      ∃ d' w, Refresh FindZeroCrossings (fuel + 1) d = Run.done d' ∧ d'.m_data = some w ∧
        w.m_samples = [] ∧ w.m_offsets = [] ∧ w.m_durations = []) := by
  have hR : ∀ n, Refresh FindZeroCrossings n d =
      match ncoLoop (edge0 :: rest) (gateOf d) din.m_timescale (last * din.m_timescale) n
          (initState din (nominalPeriod d.m_baud) edge0) with
      | Run.done s =>
        Run.done (SetData { d with m_nominalPeriod := nominalPeriod d.m_baud } (some s.cap))
      | Run.fault f => Run.fault f
      | Run.timeout => Run.timeout := by
    intro n
    simp only [Refresh, hc, ha, hs, he, hl, if_false]
  refine ⟨?_, ?_, ?_⟩
  · intro d' hd
    rw [hR] at hd
    split at hd
    · rename_i s hs'
      cases hd
      exact ⟨s, hs', rfl⟩
    · cases hd
    · cases hd
  · intro s hs'
    rw [hR, hs']
    exact ⟨_, rfl, rfl⟩
  · intro hr
    rw [hR]
    have hcond : ¬ ((initState din (nominalPeriod d.m_baud) edge0).edgepos <
        ((last * din.m_timescale : Int) : ℚ) ∧
        (initState din (nominalPeriod d.m_baud) edge0).nedge < (edge0 :: rest).length - 1) := by
      rintro ⟨-, h2⟩
      simp [initState] at h2
      omega
    simp only [ncoLoop, if_neg hcond]
    exact ⟨_, _, rfl, rfl, rfl, rfl, rfl⟩

/-- C5, witness: with two crossings `Refresh` publishes a waveform without
samples. -/
theorem Refresh_publishes_cap_witness :
    ∃ d' w, Refresh (crossingsAt [0, 800]) 1
        (exampleDecoder (exampleInput 1000) none 1250000000) = Run.done d' ∧
      d'.m_data = some w ∧ w.m_samples = [] ∧ w.m_offsets = [] ∧ w.m_durations = [] :=
  (Refresh_publishes_cap (crossingsAt [0, 800]) 0
    (exampleDecoder (exampleInput 1000) none 1250000000) _ (exampleInput 1000) 0 [800] 1000
    rfl rfl (by decide) rfl rfl).2.2 (by decide)

/-! ## Alternation of the sample values -/

theorem catchUp_frame (edges : List ℚ) (center : ℚ) (was_gating : Bool) :
    ∀ (r : Nat) (s : NcoState) (tnext : ℚ) (s' : NcoState),
      catchUp edges center was_gating r s tnext = Except.ok s' →
      s'.value = s.value ∧ s'.cap = s.cap ∧ s'.gating = s.gating ∧ s'.igate = s.igate := by
  intro r
  induction r with
  | zero =>
    intro s tnext s' h
    simp only [catchUp] at h
    cases h
    exact ⟨rfl, rfl, rfl, rfl⟩
  | succ r ih =>
    intro s tnext s' h
    unfold catchUp at h
    split at h
    · split at h
      · cases h
      · obtain ⟨h1, h2, h3, h4⟩ := ih _ _ _ h
        obtain ⟨c1, c2, c3, c4, -⟩ := correct_frame was_gating s tnext
        exact ⟨h1.trans c1, h2.trans c2, h3.trans c3, h4.trans c4⟩
    · cases h
      exact ⟨rfl, rfl, rfl, rfl⟩

theorem tick_emit {edges : List ℚ} {gate : Option DigitalWaveform} {timescale : Int}
    {s s' : NcoState} (h : tick edges gate timescale s = Except.ok s') :
    ∃ s2, s' = emit timescale s.edgepos s2 ∧ s2.value = s.value ∧ s2.cap = s.cap := by
  unfold tick at h
  simp only [] at h
  split at h
  · cases h
  · rename_i s1 hs1
    have hf := gateStep_fields hs1
    split at h
    · cases h
    · split at h
      · cases h
      · rename_i s2 hs2
        cases h
        obtain ⟨h1, h2, -, -⟩ := catchUp_frame _ _ _ _ _ _ _ hs2
        refine ⟨s2, rfl, ?_, ?_⟩
        · rw [h1, hf]
        · rw [h2, hf]

theorem emit_alternates (timescale : Int) (e : ℚ) (s : NcoState) (h : AlternatesSoFar s) :
    AlternatesSoFar (emit timescale e s) := by
  obtain ⟨h1, h2⟩ := h
  unfold emit
  split
  · refine ⟨?_, ?_⟩
    · intro i v hv
      simp only [] at hv
      rcases Nat.lt_or_ge i s.cap.m_samples.length with hi | hi
      · rw [List.getElem?_append_left hi] at hv
        exact h1 i v hv
      · rw [List.getElem?_append_right hi] at hv
        rcases Nat.eq_zero_or_pos (i - s.cap.m_samples.length) with h0 | hpos
        · rw [h0] at hv
          simp only [List.getElem?_cons_zero, Option.some.injEq] at hv
          have hi' : i = s.cap.m_samples.length := by omega
          rw [← hv, h2, hi']
          rcases Nat.mod_two_eq_zero_or_one s.cap.m_samples.length with hm | hm <;> simp [hm]
        · obtain ⟨k, hk⟩ : ∃ k, i - s.cap.m_samples.length = k + 1 := ⟨_, (Nat.succ_pred_eq_of_pos hpos).symm⟩
          rw [hk] at hv
          simp at hv
    · simp only [List.length_append, List.length_singleton]
      rw [h2]
      rcases Nat.mod_two_eq_zero_or_one s.cap.m_samples.length with hm | hm
      · have : (s.cap.m_samples.length + 1) % 2 = 1 := by omega
        simp [hm, this]
      · have : (s.cap.m_samples.length + 1) % 2 = 0 := by omega
        simp [hm, this]
  · exact ⟨h1, h2⟩

theorem ncoLoop_alternates (edges : List ℚ) (gate : Option DigitalWaveform)
    (timescale tend : Int) : ∀ (fuel : Nat) (s s' : NcoState),
      ncoLoop edges gate timescale tend fuel s = Run.done s' → AlternatesSoFar s →
      AlternatesSoFar s' := by
  intro fuel
  induction fuel with
  | zero => intro s s' h; simp [ncoLoop] at h
  | succ fuel ih =>
    intro s s' h hs
    unfold ncoLoop at h
    split at h
    · split at h
      · cases h
      · rename_i s1 hs1
        obtain ⟨s2, he, hv, hcap⟩ := tick_emit hs1
        have h2 : AlternatesSoFar s2 := by
          unfold AlternatesSoFar
          rw [hv, hcap]
          exact hs
        have h1 : AlternatesSoFar s1 := he ▸ emit_alternates _ _ _ h2
        exact ih _ _ h h1
    · cases h
      exact hs

theorem Refresh_published {FindZeroCrossings : AnalogWaveform → ℚ → List ℚ} {fuel : Nat}
    {d d' : ClockRecoveryDecoder} {w : DigitalWaveform}
    (h : Refresh FindZeroCrossings fuel d = Run.done d') (hw : d'.m_data = some w) :
    ∃ c din edge0 rest last s, d.m_channels_0 = some c ∧ asAnalog c.GetData = some din ∧
      FindZeroCrossings din d.m_thresh = edge0 :: rest ∧
      din.m_offsets.getLast? = some last ∧
      ncoLoop (edge0 :: rest) (gateOf d) din.m_timescale (last * din.m_timescale) fuel
        (initState din (nominalPeriod d.m_baud) edge0) = Run.done s ∧
      w = s.cap := by
  unfold Refresh at h
  split at h
  · cases h; simp [SetData] at hw
  · rename_i c0 hc0
    split at h
    · cases h; simp [SetData] at hw
    · rename_i din hdin
      split at h
      · cases h; simp [SetData] at hw
      · simp only [] at h
        split at h
        · cases h; simp [SetData] at hw
        · rename_i edge0 rest he
          split at h
          · cases h
          · rename_i last hl
            split at h
            · rename_i s hs
              cases h
              simp only [SetData, Option.some.injEq] at hw
              exact ⟨c0, din, edge0, rest, last, s, hc0, hdin, he, hl, hs, hw.symm⟩
            · cases h
            · cases h

theorem Refresh_published_samples {FindZeroCrossings : AnalogWaveform → ℚ → List ℚ}
    {fuel : Nat} {d d' : ClockRecoveryDecoder} {w : DigitalWaveform} {c : OscilloscopeChannel}
    {din : AnalogWaveform}
    (h : Refresh FindZeroCrossings fuel d = Run.done d') (hw : d'.m_data = some w)
    (hc : d.m_channels_0 = some c) (ha : asAnalog c.GetData = some din) :
    din.m_samples.length ≠ 0 := by
  intro hz
  simp only [Refresh, hc, ha, hz, if_true] at h
  cases h
  simp [SetData] at hw

theorem initState_alternates (din : AnalogWaveform) (ps : Int) (edge0 : ℚ) :
    AlternatesSoFar (initState din ps edge0) := by
  constructor
  · intro i v hv
    simp [initState] at hv
  · simp [initState]

/-- C7: in every waveform published by `Refresh` the sample values
alternate: the first sample is `true` and each next sample is the negation
of the one before it, for every input, with or without a gate; a gated tick
emits nothing and leaves the level (and the whole state) as it is. -/
theorem Refresh_samples_alternate (FindZeroCrossings : AnalogWaveform → ℚ → List ℚ)
    (fuel : Nat) (d d' : ClockRecoveryDecoder) (w : DigitalWaveform)
    (h : Refresh FindZeroCrossings fuel d = Run.done d') (hw : d'.m_data = some w) :
    (∀ v, w.m_samples[0]? = some v → v = true) ∧
    (∀ i a b, w.m_samples[i]? = some a → w.m_samples[i + 1]? = some b → b = !a) ∧
    (∀ (timescale : Int) (e : ℚ) (s : NcoState), s.gating = true →
      emit timescale e s = s) := by
  obtain ⟨c, din, edge0, rest, last, s, -, -, -, -, hs, rfl⟩ := Refresh_published h hw
  obtain ⟨h1, -⟩ := ncoLoop_alternates _ _ _ _ _ _ _ hs (initState_alternates _ _ _)
  refine ⟨?_, ?_, ?_⟩
  · intro v hv
    simpa using h1 0 v hv
  · intro i a b ha hb
    rw [h1 i a ha, h1 (i + 1) b hb]
    rcases Nat.mod_two_eq_zero_or_one i with hm | hm
    · have : (i + 1) % 2 = 1 := by omega
      simp [hm, this]
    · have : (i + 1) % 2 = 0 := by omega
      simp [hm, this]
  · intro timescale e s hg
    simp [emit, hg]

/-- C7, witness: a run without gate that publishes three samples, `true`,
`false`, `true`. -/
theorem Refresh_samples_alternate_witness :
    (∀ v, [true, false, true][0]? = some v → v = true) ∧
    (∀ i a b, [true, false, true][i]? = some a → [true, false, true][i + 1]? = some b →
      b = !a) ∧
    (∀ (timescale : Int) (e : ℚ) (s : NcoState), s.gating = true →
      emit timescale e s = s) :=
  Refresh_samples_alternate (crossingsAt [0, 1000, 2000, 3000, 4000]) 4
    (exampleDecoder (exampleInput 3000) none 1000000000)
    (examplePublished (exampleDecoder (exampleInput 3000) none 1000000000) 1000
      [499, 1499, 2499] [1000, 1000, 1000] [true, false, true])
    (exampleCap [499, 1499, 2499] [1000, 1000, 1000] [true, false, true])
    (by decide!) rfl

/-! ## Gating -/

theorem gateLoop_finds (g : DigitalWaveform) (e : ℚ) (j : Nat) (a0 dur : Int) (v : Bool)
    (ho : g.m_offsets[j]? = some a0) (hd : g.m_durations[j]? = some dur)
    (hv : g.m_samples[j]? = some v)
    (hin1 : ((a0 * g.m_timescale : Int) : ℚ) ≤ e)
    (hin2 : e ≤ (((a0 + dur) * g.m_timescale : Int) : ℚ)) :
    ∀ (k igate r : Nat) (gating : Bool), igate + k = j → k < r →
      (∀ i, igate ≤ i → i < j → ∃ a dr, g.m_offsets[i]? = some a ∧
        g.m_durations[i]? = some dr ∧ ((a * g.m_timescale : Int) : ℚ) ≤ e ∧
        (((a + dr) * g.m_timescale : Int) : ℚ) < e) →
      gateLoop g e r igate gating = Except.ok (j, !v) := by
  intro k
  induction k with
  | zero =>
    intro igate r gating hj hr _
    obtain ⟨r', rfl⟩ : ∃ r', r = r' + 1 := ⟨r - 1, by omega⟩
    have hij : igate = j := by omega
    subst hij
    simp only [gateLoop, ho, hd, hv]
    rw [if_neg (not_lt.mpr hin1), if_neg (not_lt.mpr hin2)]
  | succ k ih =>
    intro igate r gating hj hr hskip
    obtain ⟨r', rfl⟩ : ∃ r', r = r' + 1 := ⟨r - 1, by omega⟩
    obtain ⟨a, dr, hoa, hda, h1, h2⟩ := hskip igate (le_refl _) (by omega)
    simp only [gateLoop, hoa, hda]
    rw [if_neg (not_lt.mpr h1), if_pos h2]
    apply ih (igate + 1) r' gating (by omega) (by omega)
    intro i hi1 hi2
    exact hskip i (by omega) hi2


/-- C8, amended: a tick is suppressed when the gate lookup lands on an
inactive interval that contains the tick's edge position.  In a tick that
the loop runs (`nedge < edges.size()-1`), if interval `j` of the gate, with
`igate ≤ j < edges.size()-1`, contains the edge position at the start of the
tick (`start ≤ edgepos ≤ end`) and has the value `false`, and every interval
from the cursor up to `j` ends strictly before the edge position, then the
tick ends with `gating = true` and the cursor on `j`, emits no sample and
leaves the level as it is. -/
theorem tick_gated_emits_nothing (edges : List ℚ) (g : DigitalWaveform) (timescale : Int)
    (s : NcoState) (j : Nat) (a0 dur : Int)
    (hn : s.nedge < edges.length - 1)
    (hj1 : s.igate ≤ j) (hj2 : j < edges.length - 1)
    (hskip : ∀ i, s.igate ≤ i → i < j → ∃ a dr, g.m_offsets[i]? = some a ∧
      g.m_durations[i]? = some dr ∧ ((a * g.m_timescale : Int) : ℚ) ≤ s.edgepos ∧
      (((a + dr) * g.m_timescale : Int) : ℚ) < s.edgepos)
    (ho : g.m_offsets[j]? = some a0) (hd : g.m_durations[j]? = some dur)
    (hv : g.m_samples[j]? = some false)
    (hin1 : ((a0 * g.m_timescale : Int) : ℚ) ≤ s.edgepos)
    (hin2 : s.edgepos ≤ (((a0 + dur) * g.m_timescale : Int) : ℚ)) :
    ∃ s', tick edges (some g) timescale s = Except.ok s' ∧ s'.gating = true ∧
      s'.igate = j ∧ s'.cap = s.cap ∧ s'.value = s.value := by
  have hg := gateLoop_finds g s.edgepos j a0 dur false ho hd hv hin1 hin2 (j - s.igate)
    s.igate (edges.length - 1 - s.igate) s.gating (by omega) (by omega) hskip
  have hlt : s.nedge < edges.length := by omega
  obtain ⟨s2, hs2⟩ := catchUp_ok edges (s.period / 2) s.gating (edges.length - (s.nedge + 1))
    { s with igate := j, gating := true, cycles_open_loop := s.cycles_open_loop + 1 }
    edges[s.nedge] (by simp only []; omega)
  obtain ⟨f1, f2, f3, f4⟩ := catchUp_frame _ _ _ _ _ _ _ hs2
  simp only [] at f1 f2 f3 f4
  refine ⟨s2, ?_, f3, f4, f2, f1⟩
  simp only [tick, gateStep, hg, Bool.not_false, List.getElem?_eq_getElem hlt, hs2]
  simp [emit, f3]

/-- C8, witness: the tick at 2000 ps, with the cursor on interval 0
(`[0, 1200]` ps), skips it and lands on the inactive interval 1
(`[1200, 5000]` ps). -/
theorem tick_gated_emits_nothing_witness :
    ∃ s', tick [0, 1000, 2000, 3000] (some (exampleGate [0, 1200] [1200, 3800] [true, false]))
        1 { initState (exampleInput 5000) 1000 0 with edgepos := 2000 } = Except.ok s' ∧
      s'.gating = true ∧ s'.igate = 1 ∧
      s'.cap = (initState (exampleInput 5000) 1000 0).cap ∧ s'.value = false :=
  tick_gated_emits_nothing [0, 1000, 2000, 3000]
    (exampleGate [0, 1200] [1200, 3800] [true, false]) 1
    { initState (exampleInput 5000) 1000 0 with edgepos := 2000 } 1 1200 3800
    (by decide) (by decide) (by decide)
    (by
      intro i h1 h2
      have hi : i = 0 := by
        simp only [initState] at h1
        omega
      subst hi
      exact ⟨0, 1200, rfl, rfl, by norm_num [exampleGate], by norm_num [exampleGate]⟩)
    rfl rfl rfl (by norm_num [exampleGate]) (by norm_num [exampleGate])

/-- C8, counterexample: a published sample inside an inactive gate interval: the gate is active
on `[0, 1200]` ps and inactive on `[1200, 5000]` ps; the tick at edge
position 1000 ps is not gated and its sample is placed at
`round(1000 + 1000/2 - 1.5) = 1499` ps, inside the inactive interval. -/
theorem Refresh_sample_inside_inactive_interval :
    publishedOffsets (Refresh (crossingsAt [0, 1000, 2000, 3000]) 3
        (exampleDecoder (exampleInput 1500)
          (some (exampleGate [0, 1200] [1200, 3800] [true, false])) 1000000000)) =
      some [499, 1499] ∧
    (exampleGate [0, 1200] [1200, 3800] [true, false]).m_samples[1]? = some false ∧
    (1200 : Int) * 1 ≤ 1499 ∧ (1499 : Int) ≤ (1200 + 3800) * 1 := by
  decide!

/-! ## Resynchronisation after gating -/

theorem correct_resync (s : NcoState) (tnext : ℚ) (hg : s.gating = false) :
    (correct true s tnext).edgepos = tnext + s.period ∧
    (correct true s tnext).period = s.period := by
  simp [correct, hg]

theorem catchUp_resync (edges : List ℚ) (center : ℚ) :
    ∀ (r : Nat) (s : NcoState) (tnext : ℚ) (s2 : NcoState), s.gating = false →
      edges[s.nedge]? = some tnext →
      catchUp edges center true r s tnext = Except.ok s2 →
      s2.period = s.period ∧
      (s2 = s ∨ (s.nedge < s2.nedge ∧ s2.cycles_open_loop = 0 ∧
        ∃ t, edges[s2.nedge - 1]? = some t ∧ s2.edgepos = t + s.period)) := by
  intro r
  induction r with
  | zero =>
    intro s tnext s2 _ _ h
    simp only [catchUp] at h
    cases h
    exact ⟨rfl, Or.inl rfl⟩
  | succ r ih =>
    intro s tnext s2 hg ht h
    unfold catchUp at h
    split at h
    · split at h
      · cases h
      · rename_i t1 ht1
        obtain ⟨c1, c2⟩ := correct_resync s tnext hg
        obtain ⟨-, -, c3, -, c5⟩ := correct_frame true s tnext
        have cn := correct_nedge true s tnext
        obtain ⟨hp, hcase⟩ := ih (correct true s tnext) t1 s2 (c3.trans hg)
          (by rw [cn]; exact ht1) h
        refine ⟨hp.trans c2, Or.inr ?_⟩
        rcases hcase with rfl | ⟨hlt, hk, t, ht', he⟩
        · refine ⟨by omega, c5, tnext, ?_, c1⟩
          rw [cn]
          simpa using ht
        · exact ⟨by omega, hk, t, ht', by rw [he, c2]⟩
    · cases h
      exact ⟨rfl, Or.inl rfl⟩

/-- C9, amended: in a tick that the loop runs, where gating goes from
active to inactive and the crossing `tnext` is due, the edge position is
resynchronised to a consumed crossing plus the period (the last one
consumed in the tick), the period is left as it is and the open-loop count
is reset; the sample emitted in that tick still has the offset
`round(E + period/2 - 1.5*timescale)` computed from the edge position `E`
carried in at the start of the tick, so that the resynchronised position
shows from the next tick on. -/
theorem tick_resync_offset (edges : List ℚ) (gate : Option DigitalWaveform) (timescale : Int)
    (s s1 : NcoState) (tnext : ℚ)
    (hn : s.nedge < edges.length - 1)
    (hwas : s.gating = true)
    (hgate : gateStep edges gate s = Except.ok s1) (hnow : s1.gating = false)
    (ht : edges[s.nedge]? = some tnext)
    (hdue : tnext + s.period / 2 < s.edgepos) :
    ∃ s', tick edges gate timescale s = Except.ok s' ∧
      s'.cap.m_offsets = s.cap.m_offsets ++
        [cround (s.edgepos + s.period / 2 - (timescale : ℚ) * 1.5)] ∧
      s'.period = s.period ∧ s'.cycles_open_loop = 0 ∧ s.nedge < s'.nedge ∧
      ∃ t, edges[s'.nedge - 1]? = some t ∧ s'.edgepos = t + s.period := by
  have hf := gateStep_fields hgate
  have hn1 : s1.nedge = s.nedge := by rw [hf]
  have he1 : s1.edgepos = s.edgepos := by rw [hf]
  have hp1 : s1.period = s.period := by rw [hf]
  have hc1 : s1.cap = s.cap := by rw [hf]
  have hlt : s.nedge + 1 < edges.length := by omega
  obtain ⟨r', hr'⟩ : ∃ r', edges.length - (s1.nedge + 1) = r' + 1 :=
    ⟨edges.length - (s1.nedge + 1) - 1, by omega⟩
  obtain ⟨sk, hskdef⟩ : ∃ sk : NcoState,
      sk = { s1 with cycles_open_loop := s1.cycles_open_loop + 1 } := ⟨_, rfl⟩
  have hsk : sk.gating = false := by rw [hskdef]; exact hnow
  have hn1 : sk.nedge = s.nedge := by rw [hskdef]; exact hn1
  have he1 : sk.edgepos = s.edgepos := by rw [hskdef]; exact he1
  have hp1 : sk.period = s.period := by rw [hskdef]; exact hp1
  have hc1 : sk.cap = s.cap := by rw [hskdef]; exact hc1
  have hr' : edges.length - (s1.nedge + 1) = r' + 1 := hr'
  obtain ⟨c1, c2⟩ := correct_resync sk tnext hsk
  obtain ⟨-, c3, c4, -, c5⟩ := correct_frame true sk tnext
  have cn : (correct true sk tnext).nedge = s.nedge + 1 := by
    rw [correct_nedge]
    exact congrArg (· + 1) hn1
  obtain ⟨s2, hs2⟩ := catchUp_ok edges (s.period / 2) true r' (correct true sk tnext)
    edges[s.nedge + 1] (by rw [cn]; omega)
  have hcu : catchUp edges (s.period / 2) s.gating (edges.length - (s1.nedge + 1)) sk tnext =
      Except.ok s2 := by
    rw [hr', hwas]
    unfold catchUp
    rw [if_pos (show tnext + s.period / 2 < sk.edgepos from he1 ▸ hdue)]
    have : sk.nedge + 1 = s.nedge + 1 := congrArg (· + 1) hn1
    rw [this, List.getElem?_eq_getElem hlt]
    exact hs2
  obtain ⟨-, f2, f3, -⟩ := catchUp_frame _ _ _ _ _ _ _ hs2
  obtain ⟨hp, hcase⟩ := catchUp_resync edges (s.period / 2) r' _ _ s2 (c4.trans hsk)
    (by rw [cn]; exact List.getElem?_eq_getElem hlt) hs2
  have hper : s2.period = s.period := by rw [hp, c2]; exact hp1
  have hcap : s2.cap = s.cap := by rw [f2, c3]; exact hc1
  have hgat : s2.gating = false := by rw [f3, c4]; exact hsk
  have hfin : s.nedge < s2.nedge ∧ s2.cycles_open_loop = 0 ∧
      ∃ t, edges[s2.nedge - 1]? = some t ∧ s2.edgepos = t + s.period := by
    rcases hcase with heq | ⟨hlt2, hk, t, ht', he⟩
    · rw [heq, cn]
      refine ⟨by omega, c5, tnext, ?_, ?_⟩
      · simpa using ht
      · rw [c1]; exact congrArg (tnext + ·) hp1
    · rw [cn] at hlt2
      refine ⟨by omega, hk, t, ht', ?_⟩
      rw [he, c2]; exact congrArg (t + ·) hp1
  obtain ⟨g1, g2, t, g3, g4⟩ := hfin
  refine ⟨emit timescale s.edgepos s2, ?_, ?_, ?_, ?_, ?_, ?_⟩
  · have ht1 : edges[s1.nedge]? = some tnext := by
      have : s1.nedge = s.nedge := by rw [hf]
      rw [this]; exact ht
    simp only [tick, hgate, ht1]
    rw [← hskdef, hcu]
  · simp [emit, hgat, hcap, hper]
  · rw [(emit_frame _ _ _).2.1, hper]
  · rw [(emit_frame _ _ _).2.2.2.2.2, g2]
  · rw [(emit_frame _ _ _).2.2.1]
    exact g1
  · rw [(emit_frame _ _ _).2.2.1, (emit_frame _ _ _).1]
    exact ⟨t, g3, g4⟩

/-- C9, witness: the first tick after an inactive gate interval, at edge
position 2000 ps, with the crossing at 1200 ps due. -/
theorem tick_resync_offset_witness :
    ∃ s', tick [0, 1200, 2300, 4000] (some (exampleGate [0, 1500] [1500, 7500] [false, true])) 1
        { initState (exampleInput 3000) 1000 0 with
          edgepos := 2000, gating := true, cycles_open_loop := 2 } = Except.ok s' ∧
      s'.cap.m_offsets = [] ++ [cround (2000 + 1000 / 2 - ((1 : Int) : ℚ) * 1.5)] ∧
      s'.period = 1000 ∧ s'.cycles_open_loop = 0 ∧ 1 < s'.nedge ∧
      ∃ t, [0, 1200, 2300, 4000][s'.nedge - 1]? = some t ∧ s'.edgepos = t + 1000 :=
  tick_resync_offset [0, 1200, 2300, 4000]
    (some (exampleGate [0, 1500] [1500, 7500] [false, true])) 1
    { initState (exampleInput 3000) 1000 0 with
      edgepos := 2000, gating := true, cycles_open_loop := 2 }
    { initState (exampleInput 3000) 1000 0 with
      edgepos := 2000, gating := false, cycles_open_loop := 2, igate := 1 }
    1200 (by decide) rfl (by decide!) rfl rfl (by decide!)

/-- C9, counterexample: a resynchronisation tick whose sample is placed from
the old phase: the
gate is inactive on `[0, 1500]` ps and active afterwards, the crossings are
at 0, 1200, 2300 and 4000 ps and the period is 1000 ps.  The tick at edge
position 2000 ps is the first one that is not gated; it consumes the
crossing at 1200 ps and resynchronises the edge position to
`1200 + 1000 = 2200` ps, but its sample, the only one published, has the
offset `round(2000 + 500 - 1.5) = 2499`, not the offset
`round(2200 + 500 - 1.5) = 2699` of the resynchronised position. -/
theorem Refresh_resync_sample_uses_old_phase :
    publishedOffsets (Refresh (crossingsAt [0, 1200, 2300, 4000]) 4
        (exampleDecoder (exampleInput 3000)
          (some (exampleGate [0, 1500] [1500, 7500] [false, true])) 1000000000)) =
      some [2499] ∧
    cround (2000 + 1000 / 2 - 1 * 1.5) = 2499 ∧
    cround ((1200 + 1000) + 1000 / 2 - 1 * 1.5) = 2699 := by
  decide!

/-! ## Order of the sample offsets -/

theorem roundEven_error (y : ℚ) : |((roundEven y : Int) : ℚ) - y| ≤ 1 / 2 := by
  have h1 := Int.floor_le y
  have h2 := Int.lt_floor_add_one y
  unfold roundEven
  rw [abs_le]
  split_ifs with c1 c2 c3
  · constructor <;> linarith
  · push_cast
    constructor <;> linarith
  · constructor <;> linarith
  · push_cast
    constructor <;> linarith

theorem log2Aux_spec : ∀ (fuel n : Nat), n ≠ 0 → n ≤ fuel →
    2 ^ log2Aux fuel n ≤ n ∧ n < 2 ^ (log2Aux fuel n + 1) := by
  intro fuel
  induction fuel with
  | zero => intro n h0 h; omega
  | succ fuel ih =>
    intro n h0 h
    unfold log2Aux
    split_ifs with c
    · constructor <;> simp <;> omega
    · obtain ⟨i1, i2⟩ := ih (n / 2) (by omega) (by omega)
      constructor
      · rw [pow_succ]
        omega
      · rw [pow_succ]
        omega

theorem binade_le {x : ℚ} (hx : x ≠ 0) : (2 : ℚ) ^ binade x ≤ |x| := by
  unfold binade
  split_ifs with c
  · exact c
  · have hn : x.num.natAbs ≠ 0 := by
      simpa using hx
    obtain ⟨n1, -⟩ := log2Aux_spec _ _ hn (le_refl _)
    obtain ⟨-, d2⟩ := log2Aux_spec _ _ x.den_nz (le_refl _)
    have habs : |x| = (x.num.natAbs : ℚ) / (x.den : ℚ) := by
      conv_lhs => rw [← Rat.num_div_den x]
      rw [abs_div, Nat.abs_cast, Nat.cast_natAbs]
      simp
    rw [habs]
    have e : (2 : ℚ) ^ ((log2Aux x.num.natAbs x.num.natAbs : Int) - (log2Aux x.den x.den : Int) - 1) =
        (2 : ℚ) ^ (log2Aux x.num.natAbs x.num.natAbs) / (2 : ℚ) ^ (log2Aux x.den x.den + 1) := by
      rw [sub_sub, zpow_sub₀ (by norm_num)]
      norm_cast
    rw [e]
    have hn1 : ((2 : ℚ) ^ (log2Aux x.num.natAbs x.num.natAbs)) ≤ (x.num.natAbs : ℚ) := by
      exact_mod_cast n1
    have hd2 : (x.den : ℚ) ≤ (2 : ℚ) ^ (log2Aux x.den x.den + 1) := by
      exact_mod_cast le_of_lt d2
    have hdpos : (0 : ℚ) < (x.den : ℚ) := by exact_mod_cast x.den_pos
    exact div_le_div₀ (by positivity) hn1 hdpos hd2

theorem roundEven_ulp (a ulp : ℚ) (hu : 0 < ulp) :
    |((roundEven (a / ulp) : Int) : ℚ) * ulp - a| ≤ ulp / 2 := by
  have hr := roundEven_error (a / ulp)
  rw [abs_le] at hr ⊢
  have e : a / ulp * ulp = a := div_mul_cancel₀ _ (ne_of_gt hu)
  have h1 := mul_le_mul_of_nonneg_right hr.1 (le_of_lt hu)
  have h2 := mul_le_mul_of_nonneg_right hr.2 (le_of_lt hu)
  rw [sub_mul, e] at h1 h2
  constructor <;> linarith

theorem toFloat_error (x : ℚ) : |toFloat x - x| ≤ |x| / 2 ^ 24 := by
  unfold toFloat
  split_ifs with h0 hneg
  · simp [h0]
  · simp only []
    have hu : (0 : ℚ) < (2 : ℚ) ^ (binade x - 23) := by positivity
    have key := roundEven_ulp |x| _ hu
    have hb := binade_le h0
    have e : (2 : ℚ) ^ (binade x - 23) = (2 : ℚ) ^ binade x / 2 ^ 23 := by
      rw [zpow_sub₀ (by norm_num)]
      norm_cast
    have hx : |x| = -x := abs_of_neg hneg
    rw [abs_le] at key ⊢
    rw [e] at key ⊢
    rw [hx] at key hb ⊢
    constructor <;> linarith [key.1, key.2]
  · simp only []
    have hu : (0 : ℚ) < (2 : ℚ) ^ (binade x - 23) := by positivity
    have key := roundEven_ulp |x| _ hu
    have hb := binade_le h0
    have e : (2 : ℚ) ^ (binade x - 23) = (2 : ℚ) ^ binade x / 2 ^ 23 := by
      rw [zpow_sub₀ (by norm_num)]
      norm_cast
    have hx : |x| = x := abs_of_nonneg (le_of_not_lt hneg)
    rw [abs_le] at key ⊢
    rw [e] at key ⊢
    rw [hx] at key hb ⊢
    constructor <;> linarith [key.1, key.2]

theorem toInt64_eq_floor {x : ℚ} (hx : 0 ≤ x) : toInt64 x = ⌊x⌋ := by
  unfold toInt64
  rw [Rat.floor_def]
  exact Int.tdiv_eq_ediv (Rat.num_nonneg.mpr hx) (by exact_mod_cast Nat.zero_le _)

theorem toInt64_bounds {x : ℚ} (hx : 0 ≤ x) :
    x - 1 < ((toInt64 x : Int) : ℚ) ∧ ((toInt64 x : Int) : ℚ) ≤ x := by
  rw [toInt64_eq_floor hx]
  exact ⟨by linarith [Int.lt_floor_add_one x], Int.floor_le x⟩

theorem toFloat_literal : toFloat (10 ^ 12) = 999999995904 := by decide!

theorem nominalPeriod_bounds {baud : Int} (h : 0 < baud) :
    0 ≤ nominalPeriod baud ∧
    (10 ^ 12 : ℚ) / (baud : ℚ) * (1 - 1 / 4000000) - 1 < ((nominalPeriod baud : Int) : ℚ) ∧
    ((nominalPeriod baud : Int) : ℚ) ≤ (10 ^ 12 : ℚ) / (baud : ℚ) * (1 + 1 / 4000000) := by
  have hb : (0 : ℚ) < (baud : ℚ) := by exact_mod_cast h
  have e1 := toFloat_error (baud : ℚ)
  rw [abs_of_pos hb, abs_le] at e1
  have hfb : (0 : ℚ) < toFloat (baud : ℚ) := by
    have : (0 : ℚ) < (baud : ℚ) / 2 ^ 24 * (2 ^ 24 - 1) := by positivity
    linarith [e1.1]
  have hq : (0 : ℚ) < 999999995904 / toFloat (baud : ℚ) := by positivity
  have e2 := toFloat_error (999999995904 / toFloat (baud : ℚ))
  rw [abs_of_pos hq, abs_le] at e2
  have hfq : (0 : ℚ) ≤ toFloat (999999995904 / toFloat (baud : ℚ)) := by
    have : (0 : ℚ) ≤ 999999995904 / toFloat (baud : ℚ) / 2 ^ 24 * (2 ^ 24 - 1) := by positivity
    linarith [e2.1]
  obtain ⟨t1, t2⟩ := toInt64_bounds hfq
  have q1 : 999999995904 / toFloat (baud : ℚ) ≤
      999999995904 / ((baud : ℚ) * (1 - 1 / 2 ^ 24)) := by
    apply div_le_div_of_nonneg_left (by norm_num) (by positivity)
    linarith [e1.1]
  have q2 : 999999995904 / ((baud : ℚ) * (1 + 1 / 2 ^ 24)) ≤
      999999995904 / toFloat (baud : ℚ) := by
    apply div_le_div_of_nonneg_left (by norm_num) hfb
    linarith [e1.2]
  have r1 : (999999995904 : ℚ) / ((baud : ℚ) * (1 - 1 / 2 ^ 24)) =
      (10 ^ 12 : ℚ) / (baud : ℚ) * (999999995904 / 10 ^ 12 / (1 - 1 / 2 ^ 24)) := by
    field_simp
    ring
  have r2 : (999999995904 : ℚ) / ((baud : ℚ) * (1 + 1 / 2 ^ 24)) =
      (10 ^ 12 : ℚ) / (baud : ℚ) * (999999995904 / 10 ^ 12 / (1 + 1 / 2 ^ 24)) := by
    field_simp
    ring
  rw [r1] at q1
  rw [r2] at q2
  have hp : (0 : ℚ) < (10 ^ 12 : ℚ) / (baud : ℚ) := by positivity
  unfold nominalPeriod
  rw [toFloat_literal]
  generalize (10 ^ 12 : ℚ) / (baud : ℚ) = p at *
  generalize toFloat (999999995904 / toFloat (baud : ℚ)) = fq at *
  generalize (999999995904 : ℚ) / toFloat (baud : ℚ) = q at *
  norm_num at q1 q2 e2
  refine ⟨?_, ?_, ?_⟩
  · have : (-1 : ℚ) < ((toInt64 fq : Int) : ℚ) := by linarith
    have : (-1 : Int) < toInt64 fq := by exact_mod_cast this
    omega
  · linarith [e2.1, e2.2]
  · linarith [e2.1, e2.2]

theorem correct_lag (was_gating : Bool) (s : NcoState) (tnext : ℚ)
    (hmode : (was_gating && !s.gating) = false) (hd : (s.edgepos - tnext) - s.period > 0) :
    (correct was_gating s tnext).period =
      s.period - 1 / 40000 * s.period * (s.cycles_open_loop : ℚ) ∧
    (correct was_gating s tnext).edgepos =
      s.edgepos - 1 / 400 * (correct was_gating s tnext).period * (s.cycles_open_loop : ℚ) := by
  unfold correct
  simp only [hmode, Bool.false_eq_true, if_false, if_pos hd]
  norm_num

theorem correct_lead (was_gating : Bool) (s : NcoState) (tnext : ℚ)
    (hmode : (was_gating && !s.gating) = false) (hd : ¬ (s.edgepos - tnext) - s.period > 0) :
    (correct was_gating s tnext).period =
      s.period + 1 / 40000 * s.period * (s.cycles_open_loop : ℚ) ∧
    (correct was_gating s tnext).edgepos =
      s.edgepos + 1 / 400 * (correct was_gating s tnext).period * (s.cycles_open_loop : ℚ) := by
  unfold correct
  simp only [hmode, Bool.false_eq_true, if_false, if_neg hd]
  norm_num

theorem correct_zero_count (was_gating : Bool) (s : NcoState) (tnext : ℚ)
    (hmode : (was_gating && !s.gating) = false) (hk : s.cycles_open_loop = 0) :
    (correct was_gating s tnext).period = s.period ∧
    (correct was_gating s tnext).edgepos = s.edgepos := by
  by_cases hd : (s.edgepos - tnext) - s.period > 0
  · obtain ⟨e1, e2⟩ := correct_lag was_gating s tnext hmode hd
    rw [e2, e1, hk]
    simp
  · obtain ⟨e1, e2⟩ := correct_lead was_gating s tnext hmode hd
    rw [e2, e1, hk]
    simp

theorem tick_decompose {edges : List ℚ} {gate : Option DigitalWaveform} {timescale : Int}
    {s s1 : NcoState} (h : tick edges gate timescale s = Except.ok s1) :
    ∃ sg tnext s2, gateStep edges gate s = Except.ok sg ∧ edges[sg.nedge]? = some tnext ∧
      catchUp edges (s.period / 2) s.gating (edges.length - (sg.nedge + 1))
        { sg with cycles_open_loop := sg.cycles_open_loop + 1 } tnext = Except.ok s2 ∧
      s1 = emit timescale s.edgepos s2 := by
  unfold tick at h
  simp only [] at h
  split at h
  · cases h
  · rename_i sg hsg
    split at h
    · cases h
    · rename_i tnext ht
      split at h
      · cases h
      · rename_i s2 hs2
        cases h
        exact ⟨sg, tnext, s2, hsg, ht, hs2, rfl⟩

theorem emit_header (timescale : Int) (e : ℚ) (s : NcoState) :
    (emit timescale e s).cap.m_timescale = s.cap.m_timescale ∧
    (emit timescale e s).cap.m_triggerPhase = s.cap.m_triggerPhase ∧
    (emit timescale e s).cap.m_startTimestamp = s.cap.m_startTimestamp ∧
    (emit timescale e s).cap.m_startPicoseconds = s.cap.m_startPicoseconds := by
  unfold emit
  split <;> exact ⟨rfl, rfl, rfl, rfl⟩

theorem ncoLoop_header (edges : List ℚ) (gate : Option DigitalWaveform)
    (timescale tend : Int) : ∀ (fuel : Nat) (s s' : NcoState),
      ncoLoop edges gate timescale tend fuel s = Run.done s' →
      s'.cap.m_timescale = s.cap.m_timescale ∧
      s'.cap.m_triggerPhase = s.cap.m_triggerPhase ∧
      s'.cap.m_startTimestamp = s.cap.m_startTimestamp ∧
      s'.cap.m_startPicoseconds = s.cap.m_startPicoseconds := by
  intro fuel
  induction fuel with
  | zero => intro s s' h; simp [ncoLoop] at h
  | succ fuel ih =>
    intro s s' h
    unfold ncoLoop at h
    split at h
    · split at h
      · cases h
      · rename_i s1 hs1
        obtain ⟨s2, he, -, hcap⟩ := tick_emit hs1
        obtain ⟨h1, h2, h3, h4⟩ := ih _ _ h
        obtain ⟨e1, e2, e3, e4⟩ := emit_header timescale s.edgepos s2
        simp only [] at h1 h2 h3 h4
        rw [he] at h1 h2 h3 h4
        rw [hcap] at e1 e2 e3 e4
        exact ⟨h1.trans e1, h2.trans e2, h3.trans e3, h4.trans e4⟩
    · cases h
      exact ⟨rfl, rfl, rfl, rfl⟩

/-- C13: every non-null waveform that `Refresh` publishes has timescale 1
and trigger phase 0, whatever the timescale and the trigger phase of the
input are, and its start time (timestamp and picoseconds) is the start time
of the analog waveform of the primary input. -/
theorem Refresh_header (FindZeroCrossings : AnalogWaveform → ℚ → List ℚ)
    (fuel : Nat) (d d' : ClockRecoveryDecoder) (w : DigitalWaveform)
    (h : Refresh FindZeroCrossings fuel d = Run.done d') (hw : d'.m_data = some w) :
    w.m_timescale = 1 ∧ w.m_triggerPhase = 0 ∧
    ∃ c din, d.m_channels_0 = some c ∧ asAnalog c.GetData = some din ∧
      w.m_startTimestamp = din.m_startTimestamp ∧
      w.m_startPicoseconds = din.m_startPicoseconds := by
  obtain ⟨c, din, edge0, rest, last, s, hc, ha, -, -, hs, rfl⟩ := Refresh_published h hw
  obtain ⟨h1, h2, h3, h4⟩ := ncoLoop_header _ _ _ _ _ _ _ hs
  exact ⟨h1, h2, c, din, hc, ha, h3, h4⟩

/-- C13, witness: an input with timescale 7, trigger phase 1/2 and start
time (42, 99); the published waveform has timescale 1, trigger phase 0 and
the same start time. -/
theorem Refresh_header_witness :
    (1 : Int) = 1 ∧ (0 : ℚ) = 0 ∧
    ∃ c din, (exampleDecoder
        { exampleInput 1000 with m_timescale := 7, m_triggerPhase := 1 / 2,
                                 m_startTimestamp := 42, m_startPicoseconds := 99 }
        none 1000000000).m_channels_0 = some c ∧ asAnalog c.GetData = some din ∧
      (42 : Int) = din.m_startTimestamp ∧ (99 : Int) = din.m_startPicoseconds :=
  Refresh_header (crossingsAt [0, 1000, 2000, 3000, 4000]) 6
    (exampleDecoder
      { exampleInput 1000 with m_timescale := 7, m_triggerPhase := 1 / 2,
                               m_startTimestamp := 42, m_startPicoseconds := 99 }
      none 1000000000)
    (SetData { exampleDecoder
        { exampleInput 1000 with m_timescale := 7, m_triggerPhase := 1 / 2,
                                 m_startTimestamp := 42, m_startPicoseconds := 99 }
        none 1000000000 with m_nominalPeriod := 1000 }
      (some { exampleCap [490, 1490, 2490, 3497, 4495]
          [1000, 1000, 1000, 1000, 1000]
          [true, false, true, false, true] with
        m_startTimestamp := 42, m_startPicoseconds := 99 }))
    { exampleCap [490, 1490, 2490, 3497, 4495]
        [1000, 1000, 1000, 1000, 1000]
        [true, false, true, false, true] with
      m_startTimestamp := 42, m_startPicoseconds := 99 }
    (by decide!) rfl

/-! ## The sample emitted by a tick -/

/-- C15, amended: a tick that ends not gated appends exactly one sample: its
offset is `round(E + P/2 - 1.5*timescale)`, its duration is `P` converted to
`int64_t` (the fraction is dropped) and its value is the negated level,
where `E` is the edge position at the start of the tick and `P` is the
period at the end of the tick, after every correction made in it. -/
theorem tick_emitted_sample (edges : List ℚ) (gate : Option DigitalWaveform) (timescale : Int)
    (s s' : NcoState) (h : tick edges gate timescale s = Except.ok s')
    (hg : s'.gating = false) :
    s'.cap.m_offsets = s.cap.m_offsets ++
      [cround (s.edgepos + s'.period / 2 - (timescale : ℚ) * 1.5)] ∧
    s'.cap.m_durations = s.cap.m_durations ++ [toInt64 s'.period] ∧
    s'.cap.m_samples = s.cap.m_samples ++ [!s.value] ∧
    s'.value = !s.value := by
  obtain ⟨s2, rfl, hv, hcap⟩ := tick_emit h
  obtain ⟨-, e2, -, e4, -, -⟩ := emit_frame timescale s.edgepos s2
  rw [e4] at hg
  rw [e2]
  simp [emit, hg, hv, hcap]

/-- C15, witness: the third tick of a run without gate and with crossings
every 1000 ps, at edge position 2000 ps; the period is corrected from 1000
to 1000.075 ps in it. -/
theorem tick_emitted_sample_witness :
    (exampleCap [499, 1499, 2499] [1000, 1000, 1000] [true, false, true]).m_offsets =
      [499, 1499] ++ [cround (2000 + (40003 / 40 : ℚ) / 2 - ((1 : Int) : ℚ) * 1.5)] ∧
    (exampleCap [499, 1499, 2499] [1000, 1000, 1000] [true, false, true]).m_durations =
      [1000, 1000] ++ [toInt64 (40003 / 40)] ∧
    (exampleCap [499, 1499, 2499] [1000, 1000, 1000] [true, false, true]).m_samples =
      [true, false] ++ [!false] ∧
    true = !false :=
  tick_emitted_sample [0, 1000, 2000, 3000, 4000] none 1
    { initState (exampleInput 3000) 1000 0 with
      edgepos := 2000, cycles_open_loop := 2,
      cap := exampleCap [499, 1499] [1000, 1000] [true, false] }
    { initState (exampleInput 3000) 1000 0 with
      edgepos := 32120009 / 16000, period := 40003 / 40, nedge := 2, value := true,
      cap := exampleCap [499, 1499, 2499] [1000, 1000, 1000] [true, false, true] }
    (by decide!) rfl

/-- C15, counterexample: the duration of an emitted sample differs from the
period.  In the third tick of a run without gate and with crossings every
1000 ps, the period is corrected to `40003/40 = 1000.075` ps and the sample
is emitted with the duration 1000, the period without its fraction. -/
theorem tick_duration_is_truncated :
    tick [0, 1000, 2000, 3000, 4000] none 1
        { initState (exampleInput 3000) 1000 0 with
          edgepos := 2000, cycles_open_loop := 2,
          cap := exampleCap [499, 1499] [1000, 1000] [true, false] } =
      Except.ok { initState (exampleInput 3000) 1000 0 with
        edgepos := 32120009 / 16000, period := 40003 / 40, nedge := 2, value := true,
        cap := exampleCap [499, 1499, 2499] [1000, 1000, 1000] [true, false, true] } ∧
    ((1000 : Int) : ℚ) ≠ 40003 / 40 := by
  decide!

/-! ## One step of the catch-up loop -/

/-- C16: the bang-bang correction depends on the sign of the phase error
only.  In a catch-up step that is not a resync, with open-loop count `k`
and phase error `delta = (edgepos - tnext) - period`: when `delta > 0` the
period becomes `period*(1 - 0.000025*k)` and the edge position moves back by
`0.0025*k` times the new period; otherwise (`delta = 0` included) the period
becomes `period*(1 + 0.000025*k)` and the edge position moves forward by
`0.0025*k` times the new period.  Two such steps with the same count, period
and edge position and the same sign of `delta` give the same period and
edge position, whatever the crossing times are. -/
theorem correct_bang_bang_direction_only (was_gating : Bool) (s : NcoState) (tnext : ℚ)
    (hmode : (was_gating && !s.gating) = false) :
    ((s.edgepos - tnext) - s.period > 0 →
      (correct was_gating s tnext).period =
        s.period * (1 - 0.000025 * (s.cycles_open_loop : ℚ)) ∧
      (correct was_gating s tnext).edgepos = s.edgepos -
        0.0025 * (s.cycles_open_loop : ℚ) * (correct was_gating s tnext).period) ∧
    (¬ (s.edgepos - tnext) - s.period > 0 →
      (correct was_gating s tnext).period =
        s.period * (1 + 0.000025 * (s.cycles_open_loop : ℚ)) ∧
      (correct was_gating s tnext).edgepos = s.edgepos +
        0.0025 * (s.cycles_open_loop : ℚ) * (correct was_gating s tnext).period) ∧
    (∀ (was_gating2 : Bool) (s2 : NcoState) (tnext2 : ℚ),
      (was_gating2 && !s2.gating) = false →
      s2.cycles_open_loop = s.cycles_open_loop → s2.period = s.period →
      s2.edgepos = s.edgepos →
      ((s2.edgepos - tnext2) - s2.period > 0 ↔ (s.edgepos - tnext) - s.period > 0) →
      (correct was_gating2 s2 tnext2).period = (correct was_gating s tnext).period ∧
      (correct was_gating2 s2 tnext2).edgepos = (correct was_gating s tnext).edgepos) := by
  have hlag : (s.edgepos - tnext) - s.period > 0 →
      (correct was_gating s tnext).period =
        s.period * (1 - 0.000025 * (s.cycles_open_loop : ℚ)) ∧
      (correct was_gating s tnext).edgepos = s.edgepos -
        0.0025 * (s.cycles_open_loop : ℚ) * (correct was_gating s tnext).period := by
    intro hd
    obtain ⟨e1, e2⟩ := correct_lag was_gating s tnext hmode hd
    refine ⟨?_, ?_⟩
    · rw [e1]; norm_num; ring
    · rw [e2]; norm_num; ring
  have hlead : ¬ (s.edgepos - tnext) - s.period > 0 →
      (correct was_gating s tnext).period =
        s.period * (1 + 0.000025 * (s.cycles_open_loop : ℚ)) ∧
      (correct was_gating s tnext).edgepos = s.edgepos +
        0.0025 * (s.cycles_open_loop : ℚ) * (correct was_gating s tnext).period := by
    intro hd
    obtain ⟨e1, e2⟩ := correct_lead was_gating s tnext hmode hd
    refine ⟨?_, ?_⟩
    · rw [e1]; norm_num; ring
    · rw [e2]; norm_num; ring
  refine ⟨hlag, hlead, ?_⟩
  intro was_gating2 s2 tnext2 hmode2 hk hp he hsign
  by_cases hd : (s.edgepos - tnext) - s.period > 0
  · obtain ⟨a1, a2⟩ := correct_lag was_gating s tnext hmode hd
    obtain ⟨b1, b2⟩ := correct_lag was_gating2 s2 tnext2 hmode2 (hsign.mpr hd)
    rw [b2, a2, b1, a1, hk, hp, he]
    exact ⟨rfl, rfl⟩
  · obtain ⟨a1, a2⟩ := correct_lead was_gating s tnext hmode hd
    obtain ⟨b1, b2⟩ := correct_lead was_gating2 s2 tnext2 hmode2
      (fun h2 => hd (hsign.mp h2))
    rw [b2, a2, b1, a1, hk, hp, he]
    exact ⟨rfl, rfl⟩

/-- C17: the hard resync.  In a catch-up step taken while gating has just
gone from active to inactive (`was_gating` and not `gating`), the edge
position becomes exactly `tnext + period`, the period is unchanged, the
open-loop count is reset to 0 and `nedge` advances by exactly one; the
level, the gate cursor, the gating flag and the output waveform are
untouched. -/
theorem correct_hard_resync (was_gating : Bool) (s : NcoState) (tnext : ℚ)
    (hw : was_gating = true) (hg : s.gating = false) :
    (correct was_gating s tnext).edgepos = tnext + s.period ∧
    (correct was_gating s tnext).period = s.period ∧
    (correct was_gating s tnext).cycles_open_loop = 0 ∧
    (correct was_gating s tnext).nedge = s.nedge + 1 ∧
    (correct was_gating s tnext).value = s.value ∧
    (correct was_gating s tnext).igate = s.igate ∧
    (correct was_gating s tnext).gating = s.gating ∧
    (correct was_gating s tnext).cap = s.cap := by
  subst hw
  obtain ⟨r1, r2⟩ := correct_resync s tnext hg
  obtain ⟨c1, c2, c3, c4, c5⟩ := correct_frame true s tnext
  exact ⟨r1, r2, c5, correct_nedge true s tnext, c1, c4, c3, c2⟩

/-- C16, witness: a step with open-loop count 3, period 1000 ps and edge
position 2000 ps, for the crossing at 900 ps (phase error 100 ps). -/
theorem correct_bang_bang_direction_only_witness :
    (correct false { initState (exampleInput 3000) 1000 0 with
        edgepos := 2000, cycles_open_loop := 3 } 900).period =
      ((1000 : Int) : ℚ) * (1 - 0.000025 * ((3 : Nat) : ℚ)) ∧
    (correct false { initState (exampleInput 3000) 1000 0 with
        edgepos := 2000, cycles_open_loop := 3 } 900).edgepos =
      2000 - 0.0025 * ((3 : Nat) : ℚ) *
        (correct false { initState (exampleInput 3000) 1000 0 with
          edgepos := 2000, cycles_open_loop := 3 } 900).period :=
  (correct_bang_bang_direction_only false
    { initState (exampleInput 3000) 1000 0 with edgepos := 2000, cycles_open_loop := 3 }
    900 rfl).1 (by decide!)

/-- C17, witness: a resync step for the crossing at 1200 ps with a period
of 1000 ps. -/
theorem correct_hard_resync_witness :
    (correct true { initState (exampleInput 3000) 1000 0 with
        edgepos := 2000, cycles_open_loop := 3 } 1200).edgepos =
      1200 + ((1000 : Int) : ℚ) ∧
    (correct true { initState (exampleInput 3000) 1000 0 with
        edgepos := 2000, cycles_open_loop := 3 } 1200).period = ((1000 : Int) : ℚ) ∧
    (correct true { initState (exampleInput 3000) 1000 0 with
        edgepos := 2000, cycles_open_loop := 3 } 1200).cycles_open_loop = 0 ∧
    (correct true { initState (exampleInput 3000) 1000 0 with
        edgepos := 2000, cycles_open_loop := 3 } 1200).nedge = 1 + 1 :=
  ⟨(correct_hard_resync true
      { initState (exampleInput 3000) 1000 0 with edgepos := 2000, cycles_open_loop := 3 }
      1200 rfl rfl).1,
   (correct_hard_resync true
      { initState (exampleInput 3000) 1000 0 with edgepos := 2000, cycles_open_loop := 3 }
      1200 rfl rfl).2.1,
   (correct_hard_resync true
      { initState (exampleInput 3000) 1000 0 with edgepos := 2000, cycles_open_loop := 3 }
      1200 rfl rfl).2.2.1,
   (correct_hard_resync true
      { initState (exampleInput 3000) 1000 0 with edgepos := 2000, cycles_open_loop := 3 }
      1200 rfl rfl).2.2.2.1⟩

/-! ## The nominal period -/

theorem Refresh_stores_nominalPeriod {FindZeroCrossings : AnalogWaveform → ℚ → List ℚ}
    {fuel : Nat} {d d' : ClockRecoveryDecoder} {c : OscilloscopeChannel} {din : AnalogWaveform}
    (hc : d.m_channels_0 = some c) (ha : asAnalog c.GetData = some din)
    (hs : din.m_samples.length ≠ 0) (h : Refresh FindZeroCrossings fuel d = Run.done d') :
    d'.m_nominalPeriod = nominalPeriod d.m_baud := by
  simp only [Refresh, hc, ha, hs, if_false] at h
  split at h
  · cases h; rfl
  · split at h
    · cases h
    · split at h
      · cases h; rfl
      · cases h
      · cases h

theorem refreshTicks_head_period {FindZeroCrossings : AnalogWaveform → ℚ → List ℚ}
    {fuel : Nat} {d : ClockRecoveryDecoder} {s : NcoState}
    (h : (refreshTicks FindZeroCrossings fuel d).head? = some s) :
    s.period = ((nominalPeriod d.m_baud : Int) : ℚ) := by
  unfold refreshTicks at h
  split at h
  · simp at h
  · split at h
    · simp at h
    · split at h
      · simp at h
      · split at h
        · simp at h
        · split at h
          · simp at h
          · cases fuel with
            | zero => simp [tickStarts] at h
            | succ fuel =>
              unfold tickStarts at h
              split at h
              · simp only [List.head?_cons, Option.some.injEq] at h
                rw [← h]
                rfl
              · simp at h

/-- C14, amended: for every positive symbol rate, the nominal period that
`Refresh` stores in `m_nominalPeriod` and uses as the period of the first
tick is the single-precision quotient of `1.0e12f`, which is the `float`
999999995904, and the symbol rate converted to `float`, with its fraction
dropped.  It is a whole number of picoseconds, not negative, more than
`1e12/SymbolRate * (1 - 2.5e-7) - 1` and at most
`1e12/SymbolRate * (1 + 2.5e-7)`. -/
theorem Refresh_nominalPeriod (FindZeroCrossings : AnalogWaveform → ℚ → List ℚ)
    (fuel : Nat) (d d' : ClockRecoveryDecoder) (c : OscilloscopeChannel) (din : AnalogWaveform)
    (hc : d.m_channels_0 = some c) (ha : asAnalog c.GetData = some din)
    (hs : din.m_samples.length ≠ 0) (hbaud : 0 < d.m_baud)
    (h : Refresh FindZeroCrossings fuel d = Run.done d') :
    d'.m_nominalPeriod = toInt64 (toFloat (999999995904 / toFloat (d.m_baud : ℚ))) ∧
    0 ≤ d'.m_nominalPeriod ∧
    (10 ^ 12 : ℚ) / (d.m_baud : ℚ) * (1 - 1 / 4000000) - 1 <
      ((d'.m_nominalPeriod : Int) : ℚ) ∧
    ((d'.m_nominalPeriod : Int) : ℚ) ≤ (10 ^ 12 : ℚ) / (d.m_baud : ℚ) * (1 + 1 / 4000000) ∧
    (∀ s, (refreshTicks FindZeroCrossings fuel d).head? = some s →
      s.period = ((d'.m_nominalPeriod : Int) : ℚ)) := by
  have hst := Refresh_stores_nominalPeriod hc ha hs h
  obtain ⟨b0, b1, b2⟩ := nominalPeriod_bounds hbaud
  rw [hst]
  refine ⟨?_, b0, b1, b2, ?_⟩
  · unfold nominalPeriod
    rw [toFloat_literal]
  · intro s hs'
    exact refreshTicks_head_period hs'

/-- C14, witness: a run of five ticks at a symbol rate of 1.25 GHz; the
stored nominal period is 800 ps, and the first tick starts with it. -/
theorem Refresh_nominalPeriod_witness :
    (800 : Int) = toInt64 (toFloat (999999995904 / toFloat ((1250000000 : Int) : ℚ))) ∧
    0 ≤ (800 : Int) ∧
    (10 ^ 12 : ℚ) / ((1250000000 : Int) : ℚ) * (1 - 1 / 4000000) - 1 <
      (((800 : Int) : Int) : ℚ) ∧
    (((800 : Int) : Int) : ℚ) ≤ (10 ^ 12 : ℚ) / ((1250000000 : Int) : ℚ) * (1 + 1 / 4000000) ∧
    (∀ s, (refreshTicks (crossingsAt [0, 800, 1600, 2400, 3200]) 8
        (exampleDecoder (exampleInput 1000000) none 1250000000)).head? = some s →
      s.period = (((800 : Int) : Int) : ℚ)) :=
  Refresh_nominalPeriod (crossingsAt [0, 800, 1600, 2400, 3200]) 8
    (exampleDecoder (exampleInput 1000000) none 1250000000)
    (examplePublished (exampleDecoder (exampleInput 1000000) none 1250000000) 800
      [399, 1199, 1999, 2805, 3603] [800, 800, 800, 800, 800] [true, false, true, false, true])
    _ (exampleInput 1000000) rfl rfl (by decide) (by decide) (by decide!)

/-- C14, counterexample: with a symbol rate of 3 GHz, `1e12 / SymbolRate` is
`1000/3` ps, and `Refresh` stores the nominal period 333.  The division is
in single precision: a symbol rate of 1 Hz gives 999999995904, a symbol
rate of 115200 Hz gives 8680556, and a symbol rate of 1000000007 Hz gives
1000; the last two are above `1e12 / SymbolRate`. -/
theorem Refresh_nominalPeriod_truncated :
    Refresh (crossingsAt [0, 333]) 1 (exampleDecoder (exampleInput 1000) none 3000000000) =
      Run.done (examplePublished (exampleDecoder (exampleInput 1000) none 3000000000) 333
        [] [] []) ∧
    ((333 : Int) : ℚ) ≠ (10 ^ 12 : ℚ) / ((3000000000 : Int) : ℚ) ∧
    nominalPeriod 1 = 999999995904 ∧
    nominalPeriod 115200 = 8680556 ∧
    nominalPeriod 1000000007 = 1000 ∧
    (10 ^ 12 : ℚ) / ((1000000007 : Int) : ℚ) < ((1000 : Int) : ℚ) := by
  decide!

/-! ## The gate lookup -/

theorem gateLoop_spec (g : DigitalWaveform) (e : ℚ) :
    ∀ (r igate : Nat) (gating : Bool) (i' : Nat) (g' : Bool),
      gateLoop g e r igate gating = Except.ok (i', g') →
      igate ≤ i' ∧ i' ≤ igate + r ∧
      (∀ j, igate ≤ j → j < i' → ∃ a dr, g.m_offsets[j]? = some a ∧
        g.m_durations[j]? = some dr ∧ ((a * g.m_timescale : Int) : ℚ) ≤ e ∧
        (((a + dr) * g.m_timescale : Int) : ℚ) < e) ∧
      ((i' = igate + r ∧ g' = gating) ∨
       (∃ a, g.m_offsets[i']? = some a ∧ e < ((a * g.m_timescale : Int) : ℚ) ∧ g' = gating) ∨
       (∃ a dr v, g.m_offsets[i']? = some a ∧ g.m_durations[i']? = some dr ∧
         g.m_samples[i']? = some v ∧ ((a * g.m_timescale : Int) : ℚ) ≤ e ∧
         e ≤ (((a + dr) * g.m_timescale : Int) : ℚ) ∧ g' = !v)) := by
  intro r
  induction r with
  | zero =>
    intro igate gating i' g' h
    simp only [gateLoop, Except.ok.injEq, Prod.mk.injEq] at h
    obtain ⟨rfl, rfl⟩ := h
    exact ⟨le_refl _, le_refl _, fun j h1 h2 => absurd h2 (by omega), Or.inl ⟨rfl, rfl⟩⟩
  | succ r ih =>
    intro igate gating i' g' h
    unfold gateLoop at h
    split at h
    · cases h
    · rename_i a0 ha0
      split at h
      · cases h
      · rename_i dur hdur
        simp only [] at h
        split at h
        · rename_i hlt
          simp only [Except.ok.injEq, Prod.mk.injEq] at h
          obtain ⟨rfl, rfl⟩ := h
          exact ⟨le_refl _, by omega, fun j h1 h2 => absurd h2 (by omega),
            Or.inr (Or.inl ⟨a0, ha0, hlt, rfl⟩)⟩
        · rename_i hnlt
          split at h
          · rename_i hgt
            obtain ⟨h1, h2, h3, h4⟩ := ih _ _ _ _ h
            refine ⟨by omega, by omega, ?_, ?_⟩
            · intro j hj1 hj2
              rcases Nat.eq_or_lt_of_le hj1 with rfl | hj
              · exact ⟨a0, dur, ha0, hdur, not_lt.mp hnlt, hgt⟩
              · exact h3 j (by omega) hj2
            · rcases h4 with ⟨rfl, rfl⟩ | h4 | h4
              · exact Or.inl ⟨by omega, rfl⟩
              · exact Or.inr (Or.inl h4)
              · exact Or.inr (Or.inr h4)
          · rename_i hngt
            split at h
            · cases h
            · rename_i v hv
              simp only [Except.ok.injEq, Prod.mk.injEq] at h
              obtain ⟨rfl, rfl⟩ := h
              exact ⟨le_refl _, by omega, fun j h1 h2 => absurd h2 (by omega),
                Or.inr (Or.inr ⟨a0, dur, v, ha0, hdur, hv, not_lt.mp hnlt, not_lt.mp hngt,
                  rfl⟩)⟩

/-- C18: a tick in which the gate lookup stops on an inactive interval that
contains the edge position without setting the gating flag.  The gate has
the intervals `[0, 100]`, `[100, 200]` (active) and `[200, 1000000]` ps
(inactive) and there are three crossings, so that the loop guard is
`igate < 2`: in the first tick, at edge position 500 ps, the cursor moves
past intervals 0 and 1 and the loop ends on interval 2 without looking at
it; gating stays `false` and all three samples of the run are published
inside the inactive interval. -/
theorem gateStep_stops_at_crossing_count :
    gateStep [500, 1500, 2500]
        (some (exampleGate [0, 100, 200] [100, 100, 999800] [true, true, false]))
        (initState squareInput 1000 500) =
      Except.ok { initState squareInput 1000 500 with igate := 2, gating := false } ∧
    (exampleGate [0, 100, 200] [100, 100, 999800] [true, true, false]).m_samples[2]? =
      some false ∧
    ((200 * 1 : Int) : ℚ) ≤ 500 ∧ (500 : ℚ) ≤ (((200 + 999800) * 1 : Int) : ℚ) ∧
    publishedOffsets (Refresh (crossingsAt [500, 1500, 2500]) 4
        (exampleDecoder squareInput
          (some (exampleGate [0, 100, 200] [100, 100, 999800] [true, true, false]))
          1000000000)) = some [999, 1999, 2999] := by
  decide!

/-! ## The number of samples -/

theorem tick_lengths {edges : List ℚ} {gate : Option DigitalWaveform} {timescale : Int}
    {s s1 : NcoState} (h : tick edges gate timescale s = Except.ok s1) :
    s1.cap.m_offsets.length = s.cap.m_offsets.length + (if s1.gating then 0 else 1) ∧
    s1.cap.m_durations.length = s.cap.m_durations.length + (if s1.gating then 0 else 1) ∧
    s1.cap.m_samples.length = s.cap.m_samples.length + (if s1.gating then 0 else 1) := by
  obtain ⟨s2, rfl, -, hcap⟩ := tick_emit h
  unfold emit
  cases hg : s2.gating <;> simp [hg, hcap]

theorem tick_gating_without_gate {edges : List ℚ} {timescale : Int} {s s1 : NcoState}
    (h : tick edges none timescale s = Except.ok s1) : s1.gating = s.gating := by
  obtain ⟨sg, tnext, s2, hsg, -, hs2, rfl⟩ := tick_decompose h
  simp only [gateStep, Except.ok.injEq] at hsg
  subst hsg
  obtain ⟨-, -, f3, -⟩ := catchUp_frame _ _ _ _ _ _ _ hs2
  rw [(emit_frame _ _ _).2.2.2.1, f3]

theorem ncoLoop_lengths (edges : List ℚ) (gate : Option DigitalWaveform)
    (timescale tend : Int) : ∀ (fuel : Nat) (s s' : NcoState),
      ncoLoop edges gate timescale tend fuel s = Run.done s' →
      s'.cap.m_offsets.length = s.cap.m_offsets.length +
        (tickEnds edges gate timescale tend fuel s).countP (fun t => !t.gating) ∧
      s'.cap.m_durations.length = s.cap.m_durations.length +
        (tickEnds edges gate timescale tend fuel s).countP (fun t => !t.gating) ∧
      s'.cap.m_samples.length = s.cap.m_samples.length +
        (tickEnds edges gate timescale tend fuel s).countP (fun t => !t.gating) := by
  intro fuel
  induction fuel with
  | zero => intro s s' h; simp [ncoLoop] at h
  | succ fuel ih =>
    intro s s' h
    unfold ncoLoop at h
    unfold tickEnds
    split at h
    · rename_i hc
      rw [if_pos hc]
      split at h
      · cases h
      · rename_i s1 hs1
        obtain ⟨h1, h2, h3⟩ := ih _ _ h
        obtain ⟨t1, t2, t3⟩ := tick_lengths hs1
        simp only [] at h1 h2 h3
        rw [h1, h2, h3, t1, t2, t3, List.countP_cons]
        cases s1.gating <;> simp; omega
    · rename_i hc
      cases h
      rw [if_neg hc]
      simp

theorem tickEnds_ungated (edges : List ℚ) (timescale tend : Int) :
    ∀ (fuel : Nat) (s : NcoState), s.gating = false →
      ∀ t ∈ tickEnds edges none timescale tend fuel s, t.gating = false := by
  intro fuel
  induction fuel with
  | zero => intro s _ t ht; simp [tickEnds] at ht
  | succ fuel ih =>
    intro s hg t ht
    unfold tickEnds at ht
    split at ht
    · split at ht
      · simp at ht
      · rename_i s1 hs1
        have hg1 : s1.gating = false := (tick_gating_without_gate hs1).trans hg
        rcases List.mem_cons.mp ht with rfl | ht'
        · exact hg1
        · exact ih { s1 with edgepos := s1.edgepos + s1.period } hg1 t ht'
    · simp at ht

/-- C20: in every waveform published by `Refresh` the offsets, the
durations and the sample values have the same length, which is the number
of ticks of the run that ended with `gating` false; when no gate waveform
is in use (in particular when no gate channel is bound) that is the number
of ticks: one sample per tick. -/
theorem Refresh_sample_count (FindZeroCrossings : AnalogWaveform → ℚ → List ℚ)
    (fuel : Nat) (d d' : ClockRecoveryDecoder) (w : DigitalWaveform)
    (h : Refresh FindZeroCrossings fuel d = Run.done d') (hw : d'.m_data = some w) :
    w.m_offsets.length = w.m_samples.length ∧
    w.m_durations.length = w.m_samples.length ∧
    w.m_samples.length =
      (refreshTickEnds FindZeroCrossings fuel d).countP (fun t => !t.gating) ∧
    (gateOf d = none →
      w.m_samples.length = (refreshTickEnds FindZeroCrossings fuel d).length) ∧
    (d.m_channels_1 = none → gateOf d = none) := by
  obtain ⟨c, din, edge0, rest, last, s, hc, ha, he, hl, hs, rfl⟩ := Refresh_published h hw
  obtain ⟨h1, h2, h3⟩ := ncoLoop_lengths _ _ _ _ _ _ _ hs
  have hends : refreshTickEnds FindZeroCrossings fuel d =
      tickEnds (edge0 :: rest) (gateOf d) din.m_timescale (last * din.m_timescale) fuel
        (initState din (nominalPeriod d.m_baud) edge0) := by
    simp only [refreshTickEnds, hc, ha, he, hl, Refresh_published_samples h hw hc ha, if_false]
  simp only [initState, List.length_nil, Nat.zero_add] at h1 h2 h3
  rw [hends]
  refine ⟨by rw [h1, h3], by rw [h2, h3], h3, ?_, ?_⟩
  · intro hgate
    rw [h3, hgate]
    apply List.countP_eq_length.mpr
    intro t ht
    have := tickEnds_ungated _ _ _ fuel _ rfl t ht
    simp [this]
  · intro hnone
    simp [gateOf, hnone]

/-- C20, witness: a run of three ticks without gate, which publishes three
samples. -/
theorem Refresh_sample_count_witness :
    (exampleCap [499, 1499, 2499] [1000, 1000, 1000] [true, false, true]).m_offsets.length =
      (exampleCap [499, 1499, 2499] [1000, 1000, 1000] [true, false, true]).m_samples.length ∧
    (exampleCap [499, 1499, 2499] [1000, 1000, 1000] [true, false, true]).m_durations.length =
      (exampleCap [499, 1499, 2499] [1000, 1000, 1000] [true, false, true]).m_samples.length ∧
    (exampleCap [499, 1499, 2499] [1000, 1000, 1000] [true, false, true]).m_samples.length =
      (refreshTickEnds (crossingsAt [0, 1000, 2000, 3000, 4000]) 4
        (exampleDecoder (exampleInput 3000) none 1000000000)).countP (fun t => !t.gating) ∧
    (gateOf (exampleDecoder (exampleInput 3000) none 1000000000) = none →
      (exampleCap [499, 1499, 2499] [1000, 1000, 1000] [true, false, true]).m_samples.length =
        (refreshTickEnds (crossingsAt [0, 1000, 2000, 3000, 4000]) 4
          (exampleDecoder (exampleInput 3000) none 1000000000)).length) ∧
    ((exampleDecoder (exampleInput 3000) none 1000000000).m_channels_1 = none →
      gateOf (exampleDecoder (exampleInput 3000) none 1000000000) = none) :=
  Refresh_sample_count (crossingsAt [0, 1000, 2000, 3000, 4000]) 4
    (exampleDecoder (exampleInput 3000) none 1000000000)
    (examplePublished (exampleDecoder (exampleInput 3000) none 1000000000) 1000
      [499, 1499, 2499] [1000, 1000, 1000] [true, false, true])
    (exampleCap [499, 1499, 2499] [1000, 1000, 1000] [true, false, true])
    (by decide!) rfl

/-! ## The open-loop count -/

theorem catchUpSteps_counts (edges : List ℚ) (center : ℚ) (was_gating : Bool) :
    ∀ (r : Nat) (s : NcoState) (tnext : ℚ) (st : NcoState) (rest : List NcoState),
      catchUpSteps edges center was_gating r s tnext = st :: rest →
      st = s ∧ ∀ t ∈ rest, t.cycles_open_loop = 0 := by
  intro r
  induction r with
  | zero => intro s tnext st rest h; simp [catchUpSteps] at h
  | succ r ih =>
    intro s tnext st rest h
    unfold catchUpSteps at h
    split at h
    · simp only [List.cons.injEq] at h
      obtain ⟨rfl, hrest⟩ := h
      refine ⟨rfl, ?_⟩
      intro t ht
      rw [← hrest] at ht
      split at ht
      · simp at ht
      · rename_i t1 ht1
        cases hsteps : catchUpSteps edges center was_gating r (correct was_gating s tnext) t1 with
        | nil => rw [hsteps] at ht; simp at ht
        | cons st2 rest2 =>
          rw [hsteps] at ht
          obtain ⟨hst2, hrest2⟩ := ih _ _ _ _ hsteps
          rcases List.mem_cons.mp ht with rfl | ht'
          · rw [hst2]
            exact (correct_frame was_gating s tnext).2.2.2.2
          · exact hrest2 t ht'
    · simp at h

theorem catchUp_consumed (edges : List ℚ) (center : ℚ) (was_gating : Bool) :
    ∀ (r : Nat) (s : NcoState) (tnext : ℚ) (s2 : NcoState),
      catchUp edges center was_gating r s tnext = Except.ok s2 →
      s2 = s ∨ (s.nedge < s2.nedge ∧ s2.cycles_open_loop = 0) := by
  intro r
  induction r with
  | zero =>
    intro s tnext s2 h
    simp only [catchUp] at h
    cases h
    exact Or.inl rfl
  | succ r ih =>
    intro s tnext s2 h
    unfold catchUp at h
    split at h
    · split at h
      · cases h
      · have cn := correct_nedge was_gating s tnext
        rcases ih _ _ _ h with heq | ⟨hlt, hk⟩
        · right
          rw [heq, cn]
          exact ⟨by omega, (correct_frame was_gating s tnext).2.2.2.2⟩
        · right
          exact ⟨by omega, hk⟩
    · cases h
      exact Or.inl rfl

theorem tick_count {edges : List ℚ} {gate : Option DigitalWaveform} {timescale : Int}
    {s s1 : NcoState} (h : tick edges gate timescale s = Except.ok s1) :
    s.nedge ≤ s1.nedge ∧
    (s1.nedge = s.nedge → s1.cycles_open_loop = s.cycles_open_loop + 1) ∧
    (s.nedge < s1.nedge → s1.cycles_open_loop = 0) := by
  obtain ⟨sg, tnext, s2, hsg, -, hs2, rfl⟩ := tick_decompose h
  have hf := gateStep_fields hsg
  have gn : sg.nedge = s.nedge := by rw [hf]
  have gk : sg.cycles_open_loop = s.cycles_open_loop := by rw [hf]
  obtain ⟨-, -, e3, -, -, e6⟩ := emit_frame timescale s.edgepos s2
  rw [e3, e6]
  rcases catchUp_consumed _ _ _ _ _ _ _ hs2 with heq | ⟨hlt, hk⟩
  · rw [heq]
    simp only []
    refine ⟨by omega, fun _ => by omega, fun hlt => by omega⟩
  · simp only [] at hlt
    refine ⟨by omega, fun heq => by omega, fun _ => hk⟩

theorem tickStarts_count (edges : List ℚ) (gate : Option DigitalWaveform)
    (timescale tend : Int) : ∀ (fuel : Nat) (s : NcoState) (i : Nat) (t : NcoState),
      (tickStarts edges gate timescale tend fuel s)[i]? = some t →
      s.nedge ≤ t.nedge ∧
      t.cycles_open_loop + 1 =
        ((tickStarts edges gate timescale tend fuel s).take (i + 1)).countP
          (fun u => decide (u.nedge = t.nedge)) +
        (if t.nedge = s.nedge then s.cycles_open_loop else 0) := by
  intro fuel
  induction fuel with
  | zero => intro s i t h; simp [tickStarts] at h
  | succ fuel ih =>
    intro s i t h
    unfold tickStarts at h ⊢
    split at h
    · rename_i hc
      rw [if_pos hc]
      cases i with
      | zero =>
        simp only [List.getElem?_cons_zero, Option.some.injEq] at h
        subst h
        simp [List.countP_cons]
        omega
      | succ i =>
        simp only [List.getElem?_cons_succ] at h
        split at h
        · simp at h
        · rename_i s1 hs1
          obtain ⟨h1, h2⟩ := ih _ _ _ h
          obtain ⟨c1, c2, c3⟩ := tick_count hs1
          simp only [] at h1 h2
          refine ⟨by omega, ?_⟩
          rw [List.take_succ_cons, List.countP_cons, h2]
          generalize List.countP (fun u => decide (u.nedge = t.nedge))
            (List.take (i + 1) (tickStarts edges gate timescale tend fuel
              { s1 with edgepos := s1.edgepos + s1.period })) = N
          simp only [decide_eq_true_eq]
          split_ifs <;> omega
    · simp at h

theorem tickSteps_counts {edges : List ℚ} {gate : Option DigitalWaveform} {s st : NcoState}
    {rest : List NcoState} (h : tickSteps edges gate s = st :: rest) :
    st.cycles_open_loop = s.cycles_open_loop + 1 ∧ ∀ t ∈ rest, t.cycles_open_loop = 0 := by
  unfold tickSteps at h
  split at h
  · simp at h
  · rename_i s1 hs1
    have hf := gateStep_fields hs1
    have gk : s1.cycles_open_loop = s.cycles_open_loop := by rw [hf]
    split at h
    · simp at h
    · obtain ⟨hst, hrest⟩ := catchUpSteps_counts _ _ _ _ _ _ _ _ h
      refine ⟨?_, hrest⟩
      rw [hst]
      exact congrArg (· + 1) gk

theorem refreshTicks_eq (FindZeroCrossings : AnalogWaveform → ℚ → List ℚ) (fuel : Nat)
    (d : ClockRecoveryDecoder) :
    refreshTicks FindZeroCrossings fuel d = [] ∨
    ∃ (edges : List ℚ) (gate : Option DigitalWaveform) (timescale tend : Int)
      (din : AnalogWaveform) (edge0 : ℚ),
      refreshTicks FindZeroCrossings fuel d =
        tickStarts edges gate timescale tend fuel
          (initState din (nominalPeriod d.m_baud) edge0) := by
  unfold refreshTicks
  split
  · exact Or.inl rfl
  · split
    · exact Or.inl rfl
    · split
      · exact Or.inl rfl
      · split
        · exact Or.inl rfl
        · split
          · exact Or.inl rfl
          · exact Or.inr ⟨_, _, _, _, _, _, rfl⟩

theorem refreshTicks_count {FindZeroCrossings : AnalogWaveform → ℚ → List ℚ} {fuel : Nat}
    {d : ClockRecoveryDecoder} {i : Nat} {s : NcoState}
    (h : (refreshTicks FindZeroCrossings fuel d)[i]? = some s) :
    s.cycles_open_loop + 1 =
      ((refreshTicks FindZeroCrossings fuel d).take (i + 1)).countP
        (fun u => decide (u.nedge = s.nedge)) := by
  rcases refreshTicks_eq FindZeroCrossings fuel d with hnil | ⟨edges, gate, ts, tend, din, e0, heq⟩
  · rw [hnil] at h
    simp at h
  · rw [heq] at h ⊢
    obtain ⟨-, h2⟩ := tickStarts_count _ _ _ _ _ _ _ _ h
    rw [h2]
    simp [initState]

/-- C19: the open-loop count at a catch-up step is the number of ticks
started since the last consumed crossing, the current tick included.  In a
run of `Refresh`, the count with which tick `i` enters its catch-up loop
(the count at the start of the tick plus one) is the number of ticks up to
`i` that started with the same `nedge`, that is, since `nedge` last moved.
In every tick, the first catch-up step has that count, which is at least 1,
and every further step of the same tick has the count 0; a step with count
0 that is not a resync leaves the period and the edge position (and the
level, the gating state and the output) as they are and advances `nedge`
by one. -/
theorem open_loop_count (FindZeroCrossings : AnalogWaveform → ℚ → List ℚ) (fuel : Nat)
    (d : ClockRecoveryDecoder) :
    (∀ (i : Nat) (s : NcoState), (refreshTicks FindZeroCrossings fuel d)[i]? = some s →
      s.cycles_open_loop + 1 =
        ((refreshTicks FindZeroCrossings fuel d).take (i + 1)).countP
          (fun u => decide (u.nedge = s.nedge))) ∧
    (∀ (edges : List ℚ) (gate : Option DigitalWaveform) (s st : NcoState)
        (rest : List NcoState), tickSteps edges gate s = st :: rest →
      st.cycles_open_loop = s.cycles_open_loop + 1 ∧ 1 ≤ st.cycles_open_loop ∧
      ∀ t ∈ rest, t.cycles_open_loop = 0) ∧
    (∀ (was_gating : Bool) (s : NcoState) (tnext : ℚ),
      (was_gating && !s.gating) = false → s.cycles_open_loop = 0 →
      (correct was_gating s tnext).period = s.period ∧
      (correct was_gating s tnext).edgepos = s.edgepos ∧
      (correct was_gating s tnext).nedge = s.nedge + 1 ∧
      (correct was_gating s tnext).cycles_open_loop = 0 ∧
      (correct was_gating s tnext).value = s.value ∧
      (correct was_gating s tnext).gating = s.gating ∧
      (correct was_gating s tnext).igate = s.igate ∧
      (correct was_gating s tnext).cap = s.cap) := by
  refine ⟨fun i s h => refreshTicks_count h, ?_, ?_⟩
  · intro edges gate s st rest h
    obtain ⟨h1, h2⟩ := tickSteps_counts h
    exact ⟨h1, by omega, h2⟩
  · intro was_gating s tnext hmode hk
    obtain ⟨z1, z2⟩ := correct_zero_count was_gating s tnext hmode hk
    obtain ⟨c1, c2, c3, c4, c5⟩ := correct_frame was_gating s tnext
    exact ⟨z1, z2, correct_nedge was_gating s tnext, c5, c1, c3, c4, c2⟩

/-- C19, witness: the third tick of a run without gate and with crossings
every 1000 ps starts with the count 2 and `nedge = 1`, as the two ticks
before it; its catch-up loop is entered once, with the count 3. -/
theorem open_loop_count_witness :
    2 + 1 = ((refreshTicks (crossingsAt [0, 1000, 2000, 3000, 4000]) 4
        (exampleDecoder (exampleInput 3000) none 1000000000)).take (2 + 1)).countP
          (fun u => decide (u.nedge = 1)) ∧
    (3 = 2 + 1 ∧ 1 ≤ 3 ∧ ∀ t ∈ ([] : List NcoState), t.cycles_open_loop = 0) :=
  ⟨(open_loop_count (crossingsAt [0, 1000, 2000, 3000, 4000]) 4
      (exampleDecoder (exampleInput 3000) none 1000000000)).1 2
      { initState (exampleInput 3000) 1000 0 with
        edgepos := 2000, cycles_open_loop := 2,
        cap := exampleCap [499, 1499] [1000, 1000] [true, false] }
      (by decide!),
   (open_loop_count (crossingsAt [0, 1000, 2000, 3000, 4000]) 4
      (exampleDecoder (exampleInput 3000) none 1000000000)).2.1
      [0, 1000, 2000, 3000, 4000] none
      { initState (exampleInput 3000) 1000 0 with
        edgepos := 2000, cycles_open_loop := 2,
        cap := exampleCap [499, 1499] [1000, 1000] [true, false] }
      { initState (exampleInput 3000) 1000 0 with
        edgepos := 2000, cycles_open_loop := 3,
        cap := exampleCap [499, 1499] [1000, 1000] [true, false] }
      [] (by decide!)⟩

/-! ## Termination of the loop -/

end ClockRecovery
